import Mathlib

/-!
# The scaffold graph loader and the Bigraph visitor of `sga`

A shallow embedding of `src/Scaffold/ScaffoldGraph.cpp` and of the functor form of
`Bigraph::visit` (`src/Bigraph/Bigraph.h`), followed by the properties proved about them.

Conventions of the embedding.

* A `std::string` is the list of its characters.
* Heap objects (`ScaffoldVertex`, `ScaffoldEdge`) live in two address-indexed heaps; a pointer is
  an address (a natural number), `new` takes the next unused address, `delete` empties the cell.
* `size_t` arithmetic is arithmetic modulo `2 ^ 64`, `int` is the range `INT_MIN .. INT_MAX`.
* `exit(1)`, a failed `assert`, the use of a pointer that holds no object and a read outside a
  string end the program: the loader returns `none` (`parseDERecord` says which of them it
  was).
* A `double` is a value of an arbitrary type `F`; reading one from text is left to the
  `Runtime`.
* A local variable that is declared without an initial value holds what its storage held before:
  the loader carries the contents of its three numeric locals from one record to the next.
* Text written to `std::cout` / `std::cerr` is not part of the state.
-/

namespace Sga

/-! ## Strings, directions, orientations -/

/-- A std::string, as the list of its characters. -/
abbrev StdString := List Char

/-- The key type of the vertex store. -/
abbrev VertexID := StdString

/-- Modelled from the spec: `GraphCommon.h` is not part of the source. The direction of an edge is
the end of the vertex it leaves from, sense or antisense. -/
inductive EdgeDir where
  | ED_SENSE
  | ED_ANTISENSE
  deriving DecidableEq, Repr

/-- Modelled from the spec: `GraphCommon.h` is not part of the source. The orientation of an edge:
the target is read in the same sense or reverse-complemented. -/
inductive EdgeComp where
  | EC_SAME
  | EC_REVERSE
  deriving DecidableEq, Repr

/-- Modelled from the spec: `GraphCommon.h` is not part of the source. The kind of a scaffold
edge; the loader only creates and looks for `SET_DISTANCEEST`, and `SET_OTHER` stands for every
other kind. -/
inductive ScaffoldEdgeType where
  | SET_DISTANCEEST
  | SET_OTHER
  deriving DecidableEq, Repr

/-- Modelled from the spec: `operator!` on a direction (`GraphCommon.h`, not part of the source)
gives the opposite direction. -/
def EdgeDir.opposite : EdgeDir → EdgeDir
  | .ED_SENSE => .ED_ANTISENSE
  | .ED_ANTISENSE => .ED_SENSE

/-- Modelled from the spec: `correctDir` (`GraphCommon.h`, not part of the source) keeps the
direction for a same-orientation link and gives the opposite one for a reverse link. -/
def correctDir (dir : EdgeDir) (comp : EdgeComp) : EdgeDir :=
  match comp with
  | .EC_SAME => dir
  | .EC_REVERSE => dir.opposite

/-- Modelled from the spec: `split` (`Util`, not part of the source). The fields of a string are
the runs of characters between consecutive delimiters, empty runs included, so a string with `k`
delimiters has `k + 1` fields and the result is never empty. -/
def split : StdString → Char → List StdString
  | [], _ => [[]]
  | c :: cs, d =>
    if c = d then [] :: split cs d
    else
      match split cs d with
      | [] => [[c]]
      | f :: fs => (c :: f) :: fs

/-- Number of values of a `size_t`. -/
def SIZE_MODULUS : Nat := 2 ^ 64

/-- The `size_t` value of `n - 1`: it wraps to `2 ^ 64 - 1` when `n` is `0`. -/
def sizeMinusOne (n : Nat) : Nat := (n + SIZE_MODULUS - 1) % SIZE_MODULUS

/-- The call `s.substr(0, len)`: the first `len` characters, or all of `s` when it is shorter. -/
def substr0 (s : StdString) (len : Nat) : StdString := s.take len

/-- The read `s[i]`. Inside the string it is the character at `i`, and at `i = s.size()` it is
the terminating `NUL`. Beyond that the read is outside the string, which is undefined behaviour
(an abort when the library checks the index): `none`. -/
def readAt (s : StdString) (i : Nat) : Option Char :=
  match s.get? i with
  | some c => some c
  | none => if i = s.length then some '\x00' else none

/-! ## Stream extraction -/

/-- Largest `int`. -/
def INT_MAX : Int := 2147483647

/-- Smallest `int`. -/
def INT_MIN : Int := -2147483648

/-- The characters `std::isspace` accepts in the "C" locale. -/
def isSpaceChar (c : Char) : Bool :=
  c = ' ' || c = '\t' || c = '\n' || c = '\x0b' || c = '\x0c' || c = '\r'

/-- Value of a run of decimal digits. -/
def digitsValue (ds : List Char) : Nat :=
  ds.foldl (fun a c => 10 * a + (c.toNat - 48)) 0

/-- The extraction `stream >> n` for an `int n` from a fresh stream over `s`; the result is the
value written to `n`, and `none` when nothing is written. Leading white space is skipped; when
the stream ends there (an empty or white-space-only `s`) the extraction fails before anything is
read and `n` is left as it was. Otherwise an optional sign and the longest run of digits are
read and a value is written by the rule of C++11: `0` with no digit, the nearest bound for a
value outside the range of `int`. -/
def extractInt (s : StdString) : Option Int :=
  let t := s.dropWhile isSpaceChar
  if t = [] then none
  else
    let neg : Bool := t.head? = some '-'
    let u := if t.head? = some '-' ∨ t.head? = some '+' then t.tail else t
    let ds := u.takeWhile Char.isDigit
    if ds = [] then some 0
    else
      let v : Int := if neg then -(digitsValue ds : Int) else (digitsValue ds : Int)
      some (if v > INT_MAX then INT_MAX else if v < INT_MIN then INT_MIN else v)

/-- Decimal text of an integer: a minus sign for a negative number, then the digits. -/
def decimalText : Int → StdString
  | .ofNat n => Nat.toDigits 10 n
  | .negSucc n => '-' :: Nat.toDigits 10 (n + 1)

/-! ## parseDERecord -/

/-- The five out-parameters of `parseDERecord` after a call that returned. `F` is the type of a
`double`. -/
structure DERecord (F : Type) where
  id : VertexID
  comp : EdgeComp
  distance : Int
  numPairs : Int
  stdDev : F
  deriving DecidableEq, Repr

/-- The three numeric locals of the loop body of the loader (lines 125 to 127), `distance`,
`numPairs` and `stdDev`. They are declared without an initial value and are passed to
`parseDERecord` by reference, so before the call they hold what their storage held: what the
previous execution of the loop body left there. -/
structure Locals (F : Type) where
  distance : Int
  numPairs : Int
  stdDev : F
  deriving DecidableEq, Repr

/-- The part of the platform the loader relies on and the program does not fix: the `double` that
stream extraction writes for a text that is not empty or white space only. -/
structure Runtime (F : Type) where
  readDouble : StdString → F

/-- The extraction `stream >> x` for a `double x` from a fresh stream over `s`; as for an `int`,
nothing is written (`none`) when `s` is empty or white space only. -/
def extractDouble {F : Type} (rt : Runtime F) (s : StdString) : Option F :=
  if s.dropWhile isSpaceChar = [] then none else some (rt.readDouble s)

/-- How a call of `parseDERecord` ends: with `exit(1)`, with a read outside the first field
(undefined behaviour), or by returning with the out-parameters as given. -/
inductive ParseOutcome (F : Type) where
  | exit1
  | outOfBounds
  | parsed (r : DERecord F)
  deriving DecidableEq, Repr

/-- The index `fields[0].size() - 1` at which `parseDERecord` reads the orientation character and
to which it truncates the ID. -/
def orientationIndex (field0 : StdString) : Nat := sizeMinusOne field0.length

/-- The body of `ScaffoldGraph::parseDERecord` after the split, for the contents `locals` of
`distance`, `numPairs` and `stdDev` before the call. An extraction that writes nothing leaves
the out-parameter as it was. -/
def parseDEFields {F : Type} (rt : Runtime F) (fields : List StdString) (locals : Locals F) :
    ParseOutcome F :=
  if fields.length ≠ 4 then .exit1
  else
    match readAt (fields.getD 0 []) (orientationIndex (fields.getD 0 [])) with
    | none => .outOfBounds
    | some c =>
      .parsed
        { id := substr0 (fields.getD 0 []) (orientationIndex (fields.getD 0 []))
          comp := if c = '+' then .EC_SAME else .EC_REVERSE
          distance := (extractInt (fields.getD 1 [])).getD locals.distance
          numPairs := (extractInt (fields.getD 2 [])).getD locals.numPairs
          stdDev := (extractDouble rt (fields.getD 3 [])).getD locals.stdDev }

/-- The function `ScaffoldGraph::parseDERecord`. -/
def parseDERecord {F : Type} (rt : Runtime F) (record : StdString) (locals : Locals F) :
    ParseOutcome F :=
  parseDEFields rt (split record ',') locals

/-- The textual form of a record: the ID, `+` or `-`, then distance, pair count and standard
deviation, separated by commas. -/
def formatDERecord (id : VertexID) (comp : EdgeComp) (distance numPairs : Int)
    (stdDevText : StdString) : StdString :=
  id ++ [if comp = .EC_SAME then '+' else '-'] ++ [','] ++ decimalText distance ++ [',']
    ++ decimalText numPairs ++ [','] ++ stdDevText

/-- A runtime used to evaluate the definitions on concrete inputs: the `double` is kept as the
text it is read from. -/
def sampleRuntime : Runtime StdString where
  readDouble := fun s => s

/-- Contents of the three numeric locals before the first record, used to evaluate the
definitions on concrete inputs. -/
def sampleLocals : Locals StdString := ⟨-1, -1, ['?']⟩

/-! ## The scaffold graph -/

/-- Modelled from the spec: `ScaffoldVertex.h` is not part of the source. The classification of a
scaffold vertex, the value `deleteVertices` selects on; only equality of classifications is
used. -/
inductive ScaffoldVertexClassification where
  | SVC_UNKNOWN
  | SVC_UNIQUE
  | SVC_REPEAT
  deriving DecidableEq, Repr

/-- Modelled from the spec: `ScaffoldEdge.h` is not part of the source. The members are those the
constructor call of the loader sets, in its order, and the twin pointer, `NULL` (`none`) until
`setTwin` is called. Pointers are heap addresses. -/
structure ScaffoldEdge (F : Type) where
  m_pEnd : Nat
  m_dir : EdgeDir
  m_comp : EdgeComp
  m_distance : Int
  m_stdDev : F
  m_numPairs : Int
  m_type : ScaffoldEdgeType
  m_pTwin : Option Nat
  deriving DecidableEq, Repr

/-- Modelled from the spec: `ScaffoldVertex.h` is not part of the source. A vertex has its ID, the
length of its sequence, its classification and the vector of pointers to the edges it holds. -/
structure ScaffoldVertex where
  m_id : VertexID
  m_seqLen : Nat
  m_classification : ScaffoldVertexClassification
  m_edges : List Nat
  deriving DecidableEq, Repr

/-- A `ScaffoldGraph` object together with the heap its pointers refer to. `m_vertices` is the
vertex store, in iteration order, each key with the pointer stored under it; a heap cell is
`none` once its object was deleted. -/
structure ScaffoldGraph (F : Type) where
  vertexHeap : List (Option ScaffoldVertex)
  edgeHeap : List (Option (ScaffoldEdge F))
  m_vertices : List (VertexID × Nat)
  deriving DecidableEq, Repr

namespace ScaffoldGraph

variable {F : Type}

/-- The graph made by the constructor, on an empty heap. -/
def empty : ScaffoldGraph F := ⟨[], [], []⟩

/-- The vertex a pointer refers to, `none` when it refers to no live vertex. -/
def derefVertex (g : ScaffoldGraph F) (p : Nat) : Option ScaffoldVertex :=
  (g.vertexHeap.get? p).join

/-- The edge a pointer refers to, `none` when it refers to no live edge. -/
def derefEdge (g : ScaffoldGraph F) (p : Nat) : Option (ScaffoldEdge F) :=
  (g.edgeHeap.get? p).join

/-- The expression `new ScaffoldVertex(...)`: the object is placed at the next unused address. -/
def newVertex (g : ScaffoldGraph F) (v : ScaffoldVertex) : ScaffoldGraph F × Nat :=
  ({ g with vertexHeap := g.vertexHeap ++ [some v] }, g.vertexHeap.length)

/-- The expression `new ScaffoldEdge(...)`: the object is placed at the next unused address. -/
def newEdge (g : ScaffoldGraph F) (e : ScaffoldEdge F) : ScaffoldGraph F × Nat :=
  ({ g with edgeHeap := g.edgeHeap ++ [some e] }, g.edgeHeap.length)

/-- The lookup `m_vertices.find(id)` on the entries of the store. -/
def storeFind (id : VertexID) : List (VertexID × Nat) → Option Nat
  | [] => none
  | (k, p) :: rest => if k = id then some p else storeFind id rest

/-- The function `ScaffoldGraph::getVertex`: `none` is `NULL`. -/
def getVertex (g : ScaffoldGraph F) (id : VertexID) : Option Nat :=
  storeFind id g.m_vertices

/-- The function `ScaffoldGraph::addVertex`. The ID is read through the pointer (`none` when the
pointer holds no vertex). The constructor made the empty string the deleted-key marker of the
store, whose `insert` asserts that the key is not that marker (`none`). Otherwise `insert` adds
the entry when the key is new and changes nothing when the key is present; its result is
discarded and the function returns either way. -/
def addVertex (g : ScaffoldGraph F) (pVertex : Nat) : Option (ScaffoldGraph F) :=
  match g.derefVertex pVertex with
  | none => none
  | some v =>
    if v.m_id = [] then none
    else
      match g.getVertex v.m_id with
      | some _ => some g
      | none => some { g with m_vertices := g.m_vertices ++ [(v.m_id, pVertex)] }

/-- The two statements `new ScaffoldVertex(id, length)` and `addVertex(pVertex)` of
`loadVertices`, for a vertex that holds no edge yet. -/
def addNewVertex (g : ScaffoldGraph F) (id : VertexID) (seqLen : Nat)
    (c : ScaffoldVertexClassification) : Option (ScaffoldGraph F) :=
  let r := g.newVertex ⟨id, seqLen, c, []⟩
  r.1.addVertex r.2

/-- Modelled from the spec: `ScaffoldVertex::addEdge` is not part of the source; it attaches the
edge to the adjacency list of the vertex. -/
def vertexAddEdge (g : ScaffoldGraph F) (pVertex pEdge : Nat) : Option (ScaffoldGraph F) :=
  match g.derefVertex pVertex with
  | none => none
  | some v =>
    some { g with vertexHeap :=
      g.vertexHeap.set pVertex (some { v with m_edges := v.m_edges ++ [pEdge] }) }

/-- The function `ScaffoldGraph::addEdge`; a pointer of the embedding is never `NULL`, so the
assertion holds. -/
def addEdge (g : ScaffoldGraph F) (pVertex pEdge : Nat) : Option (ScaffoldGraph F) :=
  g.vertexAddEdge pVertex pEdge

/-- Modelled from the spec: `ScaffoldEdge::setTwin` is not part of the source; it stores the twin
pointer in the edge. -/
def setTwin (g : ScaffoldGraph F) (pEdge pTwin : Nat) : Option (ScaffoldGraph F) :=
  match g.derefEdge pEdge with
  | none => none
  | some e => some { g with edgeHeap := g.edgeHeap.set pEdge (some { e with m_pTwin := some pTwin }) }

/-- The search loop of `findEdgeTo` over the edge pointers of a vertex. The outer `none` is the
use of a pointer that holds no object; `some none` is the `NULL` result. -/
def findEdgeToIn (g : ScaffoldGraph F) (id : VertexID) (type : ScaffoldEdgeType) :
    List Nat → Option (Option Nat)
  | [] => some none
  | pEdge :: rest =>
    match g.derefEdge pEdge with
    | none => none
    | some e =>
      match g.derefVertex e.m_pEnd with
      | none => none
      | some w =>
        if w.m_id = id ∧ e.m_type = type then some (some pEdge)
        else findEdgeToIn g id type rest

/-- Modelled from the spec: `ScaffoldVertex::findEdgeTo` is not part of the source; it returns
the first edge of the vertex that ends at the vertex named `id` and has the given type, whatever
its direction and orientation, or `NULL`. -/
def findEdgeTo (g : ScaffoldGraph F) (pVertex : Nat) (id : VertexID) (type : ScaffoldEdgeType) :
    Option (Option Nat) :=
  match g.derefVertex pVertex with
  | none => none
  | some v => g.findEdgeToIn id type v.m_edges

/-- Lines 134 to 163 of `loadDistanceEstimateEdges`: what is done to the graph with a parsed
record, for the root ID and the current direction. -/
def linkRecord (g : ScaffoldGraph F) (rootID : VertexID) (currDir : EdgeDir) (r : DERecord F) :
    Option (ScaffoldGraph F) :=
  match g.getVertex rootID, g.getVertex r.id with
  | some pVertex1, some pVertex2 =>
    if pVertex1 = pVertex2 then some g
    else
      match g.findEdgeTo pVertex1 r.id .SET_DISTANCEEST with
      | none => none
      | some (some _) => some g
      | some none =>
        let a1 := g.newEdge
          ⟨pVertex2, currDir, r.comp, r.distance, r.stdDev, r.numPairs, .SET_DISTANCEEST, none⟩
        let a2 := a1.1.newEdge
          ⟨pVertex1, (correctDir currDir r.comp).opposite, r.comp, r.distance, r.stdDev,
            r.numPairs, .SET_DISTANCEEST, none⟩
        ((((a2.1.setTwin a1.2 a2.2).bind fun g3 => g3.setTwin a2.2 a1.2).bind
          fun g4 => g4.addEdge pVertex1 a1.2).bind fun g5 => g5.addEdge pVertex2 a2.2)
  | _, _ => some g

/-- Lines 123 to 163 of `loadDistanceEstimateEdges`: what is done with one field that is not
`;`, for the root ID, the current direction and the contents `locals` of the numeric locals. The
result is the graph together with the contents of the locals after the call of
`parseDERecord`. -/
def processRecord (rt : Runtime F) (g : ScaffoldGraph F) (locals : Locals F)
    (rootID : VertexID) (currDir : EdgeDir) (record : StdString) :
    Option (ScaffoldGraph F × Locals F) :=
  match parseDERecord rt record locals with
  | .exit1 => none
  | .outOfBounds => none
  | .parsed r =>
    match g.linkRecord rootID currDir r with
    | none => none
    | some g1 => some (g1, ⟨r.distance, r.numPairs, r.stdDev⟩)

/-- The state lines 155 to 161 lead to, written out: two new edges at the next two addresses, each
the twin of the other, the first appended to the edges of `pVertex1` (which held `v1`), the
second to the edges of `pVertex2` (which held `v2`). It is used to state what `linkRecord`
returns. -/
def linked (g : ScaffoldGraph F) (pVertex1 pVertex2 : Nat) (v1 v2 : ScaffoldVertex)
    (currDir : EdgeDir) (r : DERecord F) : ScaffoldGraph F where
  vertexHeap :=
    (g.vertexHeap.set pVertex1
      (some { v1 with m_edges := v1.m_edges ++ [g.edgeHeap.length] })).set pVertex2
      (some { v2 with m_edges := v2.m_edges ++ [g.edgeHeap.length + 1] })
  edgeHeap := g.edgeHeap ++
    [some ⟨pVertex2, currDir, r.comp, r.distance, r.stdDev, r.numPairs, .SET_DISTANCEEST,
        some (g.edgeHeap.length + 1)⟩,
      some ⟨pVertex1, (correctDir currDir r.comp).opposite, r.comp, r.distance, r.stdDev,
        r.numPairs, .SET_DISTANCEEST, some g.edgeHeap.length⟩]
  m_vertices := g.m_vertices

/-- The loop over the fields `1 ..` of a line (lines 114 to 164), from the current direction,
the graph and the contents of the numeric locals. -/
def processFields (rt : Runtime F) (rootID : VertexID) :
    List StdString → EdgeDir → ScaffoldGraph F × Locals F → Option (ScaffoldGraph F × Locals F)
  | [], _, st => some st
  | record :: rest, currDir, st =>
    if record = [';'] then processFields rt rootID rest currDir.opposite st
    else
      match processRecord rt st.1 st.2 rootID currDir record with
      | none => none
      | some st1 => processFields rt rootID rest currDir st1

/-- The value of `currDir` after the loop has gone over the given fields. -/
def dirAfter : List StdString → EdgeDir → EdgeDir
  | [], currDir => currDir
  | record :: rest, currDir =>
    if record = [';'] then dirAfter rest currDir.opposite else dirAfter rest currDir

/-- The direction the format gives a record that has `n` fields `;` before it on its line:
antisense for an even `n`, sense for an odd `n`. -/
def dirBySemicolons (n : Nat) : EdgeDir :=
  if n % 2 = 0 then .ED_ANTISENSE else .ED_SENSE

/-- The body of the `getline` loop (lines 107 to 164) for one line. -/
def processLine (rt : Runtime F) (st : ScaffoldGraph F × Locals F) (line : StdString) :
    Option (ScaffoldGraph F × Locals F) :=
  if substr0 line 4 = ['M', 'a', 't', 'e'] then none
  else
    match split line ' ' with
    | [] => none
    | rootID :: rest => processFields rt rootID rest .ED_ANTISENSE st

/-- The loop over the lines of the input. -/
def processLines (rt : Runtime F) :
    List StdString → ScaffoldGraph F × Locals F → Option (ScaffoldGraph F × Locals F)
  | [], st => some st
  | line :: rest, st =>
    match processLine rt st line with
    | none => none
    | some st1 => processLines rt rest st1

end ScaffoldGraph

/-- The lines `std::getline` reads from a stream over `text`: the runs between newlines, the last
one only when it is not empty. -/
def getlines : StdString → List StdString
  | [] => []
  | c :: cs =>
    if c = '\n' then [] :: getlines cs
    else
      match getlines cs with
      | [] => [[c]]
      | l :: ls => (c :: l) :: ls

namespace ScaffoldGraph

variable {F : Type}

/-- The function `ScaffoldGraph::loadDistanceEstimateEdges`, on the text of the file; `locals`
are the contents of the storage of the numeric locals when the function is entered. -/
def loadDistanceEstimateEdges (rt : Runtime F) (g : ScaffoldGraph F) (locals : Locals F)
    (text : StdString) : Option (ScaffoldGraph F) :=
  (processLines rt (getlines text) (g, locals)).map Prod.fst

end ScaffoldGraph

namespace ScaffoldGraph

variable {F : Type}

/-- The statement `delete p` for a vertex: its heap cell is emptied. -/
def deleteVertexObject (g : ScaffoldGraph F) (pVertex : Nat) : ScaffoldGraph F :=
  { g with vertexHeap := g.vertexHeap.set pVertex none }

/-- The statement `delete p` for an edge: its heap cell is emptied. -/
def deleteEdgeObject (g : ScaffoldGraph F) (pEdge : Nat) : ScaffoldGraph F :=
  { g with edgeHeap := g.edgeHeap.set pEdge none }

/-- Modelled from the spec: `ScaffoldVertex::deleteEdgesAndTwins` is not part of the source. This
is what it does to one partner vertex: the edge is taken out of the adjacency list of that vertex
and deleted. -/
def vertexDeleteEdge (g : ScaffoldGraph F) (pVertex pEdge : Nat) : Option (ScaffoldGraph F) :=
  match g.derefVertex pVertex with
  | none => none
  | some v =>
    some ({ g with vertexHeap :=
      g.vertexHeap.set pVertex (some { v with m_edges := v.m_edges.erase pEdge }) }.deleteEdgeObject
        pEdge)

/-- Modelled from the spec: `ScaffoldVertex::deleteEdgesAndTwins` is not part of the source. This
is its loop over the edges of the vertex: for each edge, the twin is removed from the partner
vertex (the vertex the edge ends at) and deleted, then the edge itself is deleted. -/
def deleteEdgesAndTwinsLoop : List Nat → ScaffoldGraph F → Option (ScaffoldGraph F)
  | [], g => some g
  | pEdge :: rest, g =>
    match g.derefEdge pEdge with
    | none => none
    | some e =>
      match e.m_pTwin with
      | none => none
      | some pTwin =>
        match g.vertexDeleteEdge e.m_pEnd pTwin with
        | none => none
        | some g1 => deleteEdgesAndTwinsLoop rest (g1.deleteEdgeObject pEdge)

/-- Modelled from the spec: `ScaffoldVertex::deleteEdgesAndTwins` is not part of the source. It
removes all the edges of the vertex together with their twins on the partner vertices and leaves
the vertex with no edge. -/
def deleteEdgesAndTwins (g : ScaffoldGraph F) (pVertex : Nat) : Option (ScaffoldGraph F) :=
  match g.derefVertex pVertex with
  | none => none
  | some v =>
    match deleteEdgesAndTwinsLoop v.m_edges g with
    | none => none
    | some g1 =>
      match g1.derefVertex pVertex with
      | none => none
      | some v1 =>
        some { g1 with vertexHeap := g1.vertexHeap.set pVertex (some { v1 with m_edges := [] }) }

/-- The statement `m_vertices.erase(iter)` for the entry with key `id` (keys are unique in the
store). -/
def storeErase (g : ScaffoldGraph F) (id : VertexID) : ScaffoldGraph F :=
  { g with m_vertices := g.m_vertices.filter fun kv => kv.1 ≠ id }

/-- The loop of `ScaffoldGraph::deleteVertices` over the entries of the store. -/
def deleteVerticesLoop (classification : ScaffoldVertexClassification) :
    List (VertexID × Nat) → ScaffoldGraph F → Option (ScaffoldGraph F)
  | [], g => some g
  | (id, pVertex) :: rest, g =>
    match g.derefVertex pVertex with
    | none => none
    | some v =>
      if v.m_classification = classification then
        match g.deleteEdgesAndTwins pVertex with
        | none => none
        | some g1 =>
          deleteVerticesLoop classification rest ((g1.deleteVertexObject pVertex).storeErase id)
      else deleteVerticesLoop classification rest g

/-- The function `ScaffoldGraph::deleteVertices`. -/
def deleteVertices (g : ScaffoldGraph F) (classification : ScaffoldVertexClassification) :
    Option (ScaffoldGraph F) :=
  deleteVerticesLoop classification g.m_vertices g

/-! ### Properties of a graph state -/

/-- The edge pointers held by the vertex at `pVertex` (none when the pointer holds no vertex). -/
def edgesOf (g : ScaffoldGraph F) (pVertex : Nat) : List Nat :=
  match g.derefVertex pVertex with
  | some v => v.m_edges
  | none => []

/-- The pointers the store holds. -/
def storedVertices (g : ScaffoldGraph F) : List Nat := g.m_vertices.map Prod.snd

/-- Twin symmetry of the edge `pEdge` held by the vertex `pOwner`: the edge has a twin, the twin
of that twin is `pEdge` again, and the twin ends at `pOwner`. -/
def twinOk (g : ScaffoldGraph F) (pOwner pEdge : Nat) : Bool :=
  match g.derefEdge pEdge with
  | none => false
  | some e =>
    match e.m_pTwin with
    | none => false
    | some pTwin =>
      match g.derefEdge pTwin with
      | none => false
      | some t => decide (t.m_pTwin = some pEdge) && decide (t.m_pEnd = pOwner)

/-- Twin symmetry of a graph: `twinOk` for every edge held by a vertex of the store. -/
def TwinSymmetric (g : ScaffoldGraph F) : Prop :=
  ∀ pVertex ∈ g.storedVertices, ∀ pEdge ∈ g.edgesOf pVertex, g.twinOk pVertex pEdge = true

instance (g : ScaffoldGraph F) : Decidable g.TwinSymmetric := by
  unfold TwinSymmetric; infer_instance

/-- The edge `pEdge` ends at a live vertex that is in the store. -/
def endStored (g : ScaffoldGraph F) (pEdge : Nat) : Bool :=
  match g.derefEdge pEdge with
  | none => false
  | some e => decide (e.m_pEnd ∈ g.storedVertices) && (g.derefVertex e.m_pEnd).isSome

/-- No dangling reference: every edge held by a vertex of the store ends at a vertex of the
store. -/
def NoDangling (g : ScaffoldGraph F) : Prop :=
  ∀ pVertex ∈ g.storedVertices, ∀ pEdge ∈ g.edgesOf pVertex, g.endStored pEdge = true

instance (g : ScaffoldGraph F) : Decidable g.NoDangling := by
  unfold NoDangling; infer_instance

/-- The edge `pEdge`, held by the vertex `pOwner`, is one half of a pair, for the adjacency
lists `adj`: it has a live twin whose twin it is, the twin ends at `pOwner`, and the edge ends
at another vertex of the store, which holds the twin. -/
def PairedEdge (g : ScaffoldGraph F) (adj : Nat → List Nat) (pOwner pEdge : Nat) : Prop :=
  ∃ e pTwin t, g.derefEdge pEdge = some e ∧ e.m_pTwin = some pTwin ∧
    g.derefEdge pTwin = some t ∧ t.m_pTwin = some pEdge ∧ t.m_pEnd = pOwner ∧
    e.m_pEnd ≠ pOwner ∧ e.m_pEnd ∈ g.storedVertices ∧ pTwin ∈ adj e.m_pEnd

/-- The structural invariant of a scaffold graph, for the adjacency lists `adj`: keys and
pointers of the store are unique, every stored pointer holds a vertex whose ID is its key, a
vertex outside the store holds no edge, no adjacency list repeats an edge, and every edge is one
half of a pair. -/
structure WellLinked (g : ScaffoldGraph F) (adj : Nat → List Nat) : Prop where
  keys_nodup : (g.m_vertices.map Prod.fst).Nodup
  ptrs_nodup : g.storedVertices.Nodup
  ids : ∀ kv ∈ g.m_vertices, ∃ v, g.derefVertex kv.2 = some v ∧ v.m_id = kv.1
  loose : ∀ p, p ∉ g.storedVertices → g.edgesOf p = []
  adj_nodup : ∀ p ∈ g.storedVertices, (adj p).Nodup
  paired : ∀ p ∈ g.storedVertices, ∀ e ∈ adj p, PairedEdge g adj p e

/-- The structural invariant for the adjacency lists the vertices hold. -/
def WellFormed (g : ScaffoldGraph F) : Prop := WellLinked g g.edgesOf

/-- The adjacency lists of `g`, with `todo` in place of the list of the vertex `pVertex`: the
edges still to be visited by the loop of `deleteEdgesAndTwins` on that vertex. -/
def edgesExcept (g : ScaffoldGraph F) (pVertex : Nat) (todo : List Nat) (q : Nat) : List Nat :=
  if q = pVertex then todo else g.edgesOf q

/-- The graphs built from the empty graph by constructing vertices (`new ScaffoldVertex`, with no
edge), calling `addVertex` on any pointer and loading distance estimates. -/
inductive Loaded (rt : Runtime F) : ScaffoldGraph F → Prop where
  | empty : Loaded rt ScaffoldGraph.empty
  | newVertex {g : ScaffoldGraph F} (id : VertexID) (seqLen : Nat)
      (c : ScaffoldVertexClassification) :
      Loaded rt g → Loaded rt (g.newVertex ⟨id, seqLen, c, []⟩).1
  | addVertex {g g1 : ScaffoldGraph F} (pVertex : Nat) :
      Loaded rt g → g.addVertex pVertex = some g1 → Loaded rt g1
  | load {g g1 : ScaffoldGraph F} (locals : Locals F) (text : StdString) :
      Loaded rt g → g.loadDistanceEstimateEdges rt locals text = some g1 → Loaded rt g1

/-- The graphs reachable from the empty graph by constructing vertices (`new ScaffoldVertex`,
with no edge), calling `addVertex` on any pointer, loading distance estimates and deleting the
vertices of a classification. -/
inductive Reachable (rt : Runtime F) : ScaffoldGraph F → Prop where
  | empty : Reachable rt ScaffoldGraph.empty
  | newVertex {g : ScaffoldGraph F} (id : VertexID) (seqLen : Nat)
      (c : ScaffoldVertexClassification) :
      Reachable rt g → Reachable rt (g.newVertex ⟨id, seqLen, c, []⟩).1
  | addVertex {g g1 : ScaffoldGraph F} (pVertex : Nat) :
      Reachable rt g → g.addVertex pVertex = some g1 → Reachable rt g1
  | load {g g1 : ScaffoldGraph F} (locals : Locals F) (text : StdString) :
      Reachable rt g → g.loadDistanceEstimateEdges rt locals text = some g1 → Reachable rt g1
  | deleteVertices {g g1 : ScaffoldGraph F} (c : ScaffoldVertexClassification) :
      Reachable rt g → g.deleteVertices c = some g1 → Reachable rt g1

end ScaffoldGraph

/-- A graph with the three vertices `A`, `B`, `C` and no edge, used to evaluate the definitions
on concrete inputs. -/
def sampleGraph : ScaffoldGraph StdString where
  vertexHeap := [some ⟨['A'], 10, .SVC_UNIQUE, []⟩, some ⟨['B'], 10, .SVC_REPEAT, []⟩,
    some ⟨['C'], 10, .SVC_UNIQUE, []⟩]
  edgeHeap := []
  m_vertices := [(['A'], 0), (['B'], 1), (['C'], 2)]

/-- A distance-estimate file of two lines for `sampleGraph`: `A` is linked to `B` and, after a
`;`, to `C`; on the second line the record for `A` repeats the link that exists and the record
for `C` is new. -/
def sampleText : StdString := "A B+,10,3,1.5 ; C-,20,2,0.5\nB A+,1,1,1 C+,1,2,3\n".toList

/-- A line for `sampleGraph` with a conflicting record: `B-,99,9,9.9` repeats the link from `A`
to `B` that the record before it made; the record after it has empty numeric fields. -/
def sampleConflictLine : StdString := "A B+,10,3,1.5 B-,99,9,9.9 C-,,,".toList

/-- The line `sampleConflictLine` without its conflicting record. -/
def sampleLineWithoutConflict : StdString := "A B+,10,3,1.5 C-,,,".toList

/-- The graph `sampleGraph` after `sampleText` was loaded. -/
def sampleLoaded : ScaffoldGraph StdString where
  vertexHeap := [some ⟨['A'], 10, .SVC_UNIQUE, [0, 2]⟩, some ⟨['B'], 10, .SVC_REPEAT, [1, 4]⟩,
    some ⟨['C'], 10, .SVC_UNIQUE, [3, 5]⟩]
  edgeHeap := [
    some ⟨1, .ED_ANTISENSE, .EC_SAME, 10, "1.5".toList, 3, .SET_DISTANCEEST, some 1⟩,
    some ⟨0, .ED_SENSE, .EC_SAME, 10, "1.5".toList, 3, .SET_DISTANCEEST, some 0⟩,
    some ⟨2, .ED_SENSE, .EC_REVERSE, 20, "0.5".toList, 2, .SET_DISTANCEEST, some 3⟩,
    some ⟨0, .ED_SENSE, .EC_REVERSE, 20, "0.5".toList, 2, .SET_DISTANCEEST, some 2⟩,
    some ⟨2, .ED_ANTISENSE, .EC_SAME, 1, "3".toList, 2, .SET_DISTANCEEST, some 5⟩,
    some ⟨1, .ED_SENSE, .EC_SAME, 1, "3".toList, 2, .SET_DISTANCEEST, some 4⟩]
  m_vertices := [(['A'], 0), (['B'], 1), (['C'], 2)]

/-- The graph `sampleLoaded` after the vertices classified `SVC_REPEAT` (here `B`) were
deleted. -/
def sampleDeleted : ScaffoldGraph StdString where
  vertexHeap := [some ⟨['A'], 10, .SVC_UNIQUE, [2]⟩, none, some ⟨['C'], 10, .SVC_UNIQUE, [3]⟩]
  edgeHeap := [none, none,
    some ⟨2, .ED_SENSE, .EC_REVERSE, 20, "0.5".toList, 2, .SET_DISTANCEEST, some 3⟩,
    some ⟨0, .ED_SENSE, .EC_REVERSE, 20, "0.5".toList, 2, .SET_DISTANCEEST, some 2⟩,
    none, none]
  m_vertices := [(['A'], 0), (['C'], 2)]

/-! ## Bigraph::visit -/

/-- The vertex store of a `Bigraph`, in iteration order; `V` is the type of a vertex pointer. The
other members are not read by `visit`. -/
structure Bigraph (V : Type) where
  m_vertices : List (VertexID × V)

/-- A visitor functor `VF`, acting on a state of type `S`: its own members together with all it
reaches through the graph and vertex pointers it is given. Each method takes the graph (the
`this` of the call) first. -/
structure VisitFunctor (S V : Type) where
  previsit : Bigraph V → S → S
  visit : Bigraph V → V → S → Bool × S
  postvisit : Bigraph V → S → S

/-- The `for` loop of the functor form of `Bigraph::visit` over the entries not yet visited,
from the current value of `modified` and the current state. -/
def Bigraph.visitLoop {S V : Type} (g : Bigraph V) (vf : VisitFunctor S V) :
    List (VertexID × V) → Bool → S → Bool × S
  | [], modified, s => (modified, s)
  | entry :: rest, modified, s =>
    let r := vf.visit g entry.2 s
    Bigraph.visitLoop g vf rest (r.1 || modified) r.2

/-- The functor form of `Bigraph::visit`. The functor is assumed not to insert into or erase from
the store during the pass. -/
def Bigraph.visit {S V : Type} (g : Bigraph V) (vf : VisitFunctor S V) (s : S) : Bool × S :=
  let modified := false
  let s1 := vf.previsit g s
  let r := Bigraph.visitLoop g vf g.m_vertices modified s1
  (r.1, vf.postvisit g r.2)

/-- A call made to the functor, with the result of the call for `visit`. -/
inductive VisitCall (V : Type) where
  | previsit
  | visit (v : V) (result : Bool)
  | postvisit
  deriving DecidableEq, Repr

/-- The functor `vf` with a log: each call does what `vf` does and appends itself to the log. -/
def VisitFunctor.logged {S V : Type} (vf : VisitFunctor S V) :
    VisitFunctor (S × List (VisitCall V)) V where
  previsit := fun g s => (vf.previsit g s.1, s.2 ++ [.previsit])
  visit := fun g v s =>
    ((vf.visit g v s.1).1, ((vf.visit g v s.1).2, s.2 ++ [.visit v (vf.visit g v s.1).1]))
  postvisit := fun g s => (vf.postvisit g s.1, s.2 ++ [.postvisit])

/-! ## Fields of a string -/

theorem split_ne_nil (s : StdString) (d : Char) : split s d ≠ [] := by
  induction s with
  | nil => simp [split]
  | cons c cs ih =>
    unfold split
    split_ifs
    · simp
    · cases h : split cs d with
      | nil => simp
      | cons f fs => simp

theorem split_no_delim (s : StdString) (d : Char) (h : d ∉ s) : split s d = [s] := by
  induction s with
  | nil => rfl
  | cons c cs ih =>
    have hc : c ≠ d := fun e => h (by simp [e])
    have hcs : d ∉ cs := fun e => h (by simp [e])
    simp [split, hc, ih hcs]

theorem split_append_delim (a b : StdString) (d : Char) (h : d ∉ a) :
    split (a ++ d :: b) d = a :: split b d := by
  induction a with
  | nil => simp [split]
  | cons c cs ih =>
    have hc : c ≠ d := fun e => h (by simp [e])
    have hcs : d ∉ cs := fun e => h (by simp [e])
    simp [split, hc, ih hcs]

/-! ## Decimal text -/

theorem digitChar_isDigit (k : Nat) (h : k < 10) :
    (Nat.digitChar k).isDigit = true ∧ (Nat.digitChar k).toNat - 48 = k := by
  interval_cases k <;> decide

theorem digitsValue_append_one (ds : List Char) (c : Char) :
    digitsValue (ds ++ [c]) = 10 * digitsValue ds + (c.toNat - 48) := by
  simp [digitsValue, List.foldl_append]

theorem toDigitsCore_spec (f : Nat) : ∀ (n : Nat) (acc : List Char), n < f →
    ∃ ds : List Char, Nat.toDigitsCore 10 f n acc = ds ++ acc ∧ ds ≠ [] ∧
      (∀ c ∈ ds, c.isDigit = true) ∧ digitsValue ds = n := by
  induction f with
  | zero => intro n acc h; omega
  | succ f ih =>
    intro n acc h
    have hd := digitChar_isDigit (n % 10) (Nat.mod_lt _ (by decide))
    by_cases h0 : n / 10 = 0
    · refine ⟨[Nat.digitChar (n % 10)], by simp [Nat.toDigitsCore, h0], by simp, ?_, ?_⟩
      · intro c hc
        simp at hc
        rw [hc]; exact hd.1
      · have := digitsValue_append_one [] (Nat.digitChar (n % 10))
        simp only [List.nil_append] at this
        rw [this, hd.2]
        simp [digitsValue]
        omega
    · obtain ⟨ds, h1, _, h3, h4⟩ := ih (n / 10) (Nat.digitChar (n % 10) :: acc) (by omega)
      refine ⟨ds ++ [Nat.digitChar (n % 10)], ?_, by simp, ?_, ?_⟩
      · simp [Nat.toDigitsCore, h0, h1]
      · intro c hc
        rcases List.mem_append.1 hc with hc | hc
        · exact h3 c hc
        · simp at hc
          rw [hc]; exact hd.1
      · rw [digitsValue_append_one, h4, hd.2]
        omega

theorem toDigits_spec (n : Nat) :
    Nat.toDigits 10 n ≠ [] ∧ (∀ c ∈ Nat.toDigits 10 n, c.isDigit = true) ∧
      digitsValue (Nat.toDigits 10 n) = n := by
  obtain ⟨ds, h1, h2, h3, h4⟩ := toDigitsCore_spec (n + 1) n [] (by omega)
  simp only [List.append_nil] at h1
  simp only [Nat.toDigits, h1]
  exact ⟨h2, h3, h4⟩

theorem isDigit_not_special (c : Char) (h : c.isDigit = true) :
    isSpaceChar c = false ∧ c ≠ '-' ∧ c ≠ '+' ∧ c ≠ ',' := by
  refine ⟨?_, ?_, ?_, ?_⟩
  · simp only [isSpaceChar, Bool.or_eq_false_iff, decide_eq_false_iff_not]
    refine ⟨⟨⟨⟨⟨?_, ?_⟩, ?_⟩, ?_⟩, ?_⟩, ?_⟩ <;> (intro e; subst e; revert h; decide)
  all_goals (intro e; subst e; revert h; decide)

theorem extractInt_digits (ds : List Char) (h0 : ds ≠ []) (hd : ∀ c ∈ ds, c.isDigit = true)
    (hr : (digitsValue ds : Int) ≤ INT_MAX) : extractInt ds = some (digitsValue ds : Int) := by
  obtain ⟨c, cs, rfl⟩ := List.exists_cons_of_ne_nil h0
  have hc := isDigit_not_special c (hd c (by simp))
  have htw : List.takeWhile Char.isDigit (c :: cs) = c :: cs :=
    List.takeWhile_eq_self_iff.2 hd
  have hmin : ¬ ((digitsValue (c :: cs) : Int) < INT_MIN) := by
    have : (0 : Int) ≤ (digitsValue (c :: cs) : Int) := Int.ofNat_nonneg _
    simp only [INT_MIN]; omega
  unfold extractInt
  simp only [List.dropWhile_cons, hc.1, List.head?_cons, Option.some.injEq, hc.2.1, hc.2.2.1,
    or_self, if_false, htw, decide_False, Bool.false_eq_true]
  simp [htw, not_lt.2 hr, hmin]

theorem extractInt_neg_digits (ds : List Char) (h0 : ds ≠ []) (hd : ∀ c ∈ ds, c.isDigit = true)
    (hr : INT_MIN ≤ -(digitsValue ds : Int)) :
    extractInt ('-' :: ds) = some (-(digitsValue ds : Int)) := by
  have htw : List.takeWhile Char.isDigit ds = ds := List.takeWhile_eq_self_iff.2 hd
  have hsp : isSpaceChar '-' = false := by decide
  have hmax : ¬ (-(digitsValue ds : Int) > INT_MAX) := by
    have : (0 : Int) ≤ (digitsValue ds : Int) := Int.ofNat_nonneg _
    simp only [INT_MAX]; omega
  unfold extractInt
  simp only [List.dropWhile_cons, hsp, List.head?_cons, true_or, if_true, List.tail_cons, htw,
    decide_True, Bool.false_eq_true]
  simp [htw, h0, hmax, not_lt.2 hr]

theorem extractInt_decimalText (z : Int) (h1 : INT_MIN ≤ z) (h2 : z ≤ INT_MAX) :
    extractInt (decimalText z) = some z := by
  cases z with
  | ofNat n =>
    obtain ⟨a, b, c⟩ := toDigits_spec n
    have hz : (digitsValue (Nat.toDigits 10 n) : Int) = Int.ofNat n := by rw [c]; rfl
    rw [decimalText, extractInt_digits _ a b (by rw [hz]; exact h2), hz]
  | negSucc n =>
    obtain ⟨a, b, c⟩ := toDigits_spec (n + 1)
    have hz : -(digitsValue (Nat.toDigits 10 (n + 1)) : Int) = Int.negSucc n := by rw [c]; rfl
    rw [decimalText, extractInt_neg_digits _ a b (by rw [hz]; exact h1), hz]

theorem decimalText_no_comma (z : Int) : ',' ∉ decimalText z := by
  cases z with
  | ofNat n =>
    intro h
    exact (isDigit_not_special _ ((toDigits_spec n).2.1 _ h)).2.2.2 rfl
  | negSucc n =>
    intro h
    simp only [decimalText, List.mem_cons] at h
    rcases h with h | h
    · exact absurd h (by decide)
    · exact (isDigit_not_special _ ((toDigits_spec (n + 1)).2.1 _ h)).2.2.2 rfl

/-! ## parseDERecord -/

theorem parseDEFields_exit_iff {F : Type} (rt : Runtime F) (fields : List StdString)
    (locals : Locals F) : parseDEFields rt fields locals = .exit1 ↔ fields.length ≠ 4 := by
  unfold parseDEFields
  split_ifs with h
  · simp [h]
  · cases readAt (fields.getD 0 []) (orientationIndex (fields.getD 0 [])) <;> simp [h]

theorem parseDERecord_exit_iff {F : Type} (rt : Runtime F) (record : StdString)
    (locals : Locals F) :
    parseDERecord rt record locals = .exit1 ↔ (split record ',').length ≠ 4 :=
  parseDEFields_exit_iff rt (split record ',') locals

theorem parseDEFields_four {F : Type} (rt : Runtime F) (f0 f1 f2 f3 : StdString)
    (locals : Locals F) :
    parseDEFields rt [f0, f1, f2, f3] locals
      = match readAt f0 (orientationIndex f0) with
        | none => .outOfBounds
        | some c =>
          .parsed
            { id := substr0 f0 (orientationIndex f0)
              comp := if c = '+' then .EC_SAME else .EC_REVERSE
              distance := (extractInt f1).getD locals.distance
              numPairs := (extractInt f2).getD locals.numPairs
              stdDev := (extractDouble rt f3).getD locals.stdDev } := by
  simp [parseDEFields]

theorem orientationIndex_lt_of_nonempty (field0 : StdString) (h0 : field0 ≠ [])
    (h : field0.length < SIZE_MODULUS) : orientationIndex field0 < field0.length := by
  have hpos : 0 < field0.length := List.length_pos.2 h0
  simp only [orientationIndex, sizeMinusOne]
  rw [show field0.length + SIZE_MODULUS - 1 = (field0.length - 1) + SIZE_MODULUS by omega,
    Nat.add_mod_right, Nat.mod_eq_of_lt (by omega)]
  omega

theorem readAt_of_lt (s : StdString) (i : Nat) (h : i < s.length) :
    ∃ c, readAt s i = some c := by
  unfold readAt
  rw [List.get?_eq_get h]
  exact ⟨_, rfl⟩

/-- A record with 4 fields and a first field that is not empty is parsed: the call returns. -/
theorem parseDERecord_parsed_of_nonempty {F : Type} (rt : Runtime F) (record : StdString)
    (locals : Locals F) (f0 f1 f2 f3 : StdString) (hs : split record ',' = [f0, f1, f2, f3])
    (h0 : f0 ≠ []) (hlen : f0.length < SIZE_MODULUS) :
    ∃ r, parseDERecord rt record locals = .parsed r := by
  obtain ⟨c, hc⟩ := readAt_of_lt f0 _ (orientationIndex_lt_of_nonempty f0 h0 hlen)
  rw [parseDERecord, hs, parseDEFields_four, hc]
  exact ⟨_, rfl⟩

/-- C4: the records `,1,2,3` and `A+,,,` have 4 fields each. On the first, `parseDERecord` does
not take its `exit(1)` and does not return either: it reads the orientation character outside
the empty first field. On the second it returns, with `distance`, `numPairs` and `stdDev` left
as they were before the call. -/
theorem parseDERecord_four_fields_without_result {F : Type} (rt : Runtime F)
    (locals : Locals F) :
    (split ",1,2,3".toList ',').length = 4 ∧
      parseDERecord rt ",1,2,3".toList locals = ParseOutcome.outOfBounds ∧
      (split "A+,,,".toList ',').length = 4 ∧
      parseDERecord rt "A+,,,".toList locals
        = ParseOutcome.parsed
            ⟨['A'], .EC_SAME, locals.distance, locals.numPairs, locals.stdDev⟩ := by
  have h1 : split ",1,2,3".toList ',' = [[], ['1'], ['2'], ['3']] := by decide
  have h2 : split "A+,,,".toList ',' = [['A', '+'], [], [], []] := by decide
  have r1 : readAt ([] : StdString) (orientationIndex []) = none := by decide
  have r2 : readAt ['A', '+'] (orientationIndex ['A', '+']) = some '+' := by decide
  have i2 : orientationIndex ['A', '+'] = 1 := by decide
  have e0 : extractInt [] = none := by decide
  refine ⟨by decide, ?_, by decide, ?_⟩
  · rw [parseDERecord, h1, parseDEFields_four, r1]
  · rw [parseDERecord, h2, parseDEFields_four, r2]
    simp [i2, e0, extractDouble, substr0]

/-- C10: the record `,1,2,3` has 4 fields and an empty first field; the index `size() - 1`
wraps to `2 ^ 64 - 1`, which is no position of the field, so the orientation character is read
out of bounds. -/
theorem parseDERecord_empty_first_field_out_of_range :
    split ",1,2,3".toList ',' = [[], ['1'], ['2'], ['3']] ∧
      orientationIndex ([] : StdString) = 18446744073709551615 ∧
      ¬ orientationIndex ([] : StdString) < ([] : StdString).length ∧
      readAt ([] : StdString) (orientationIndex []) = none ∧
      parseDERecord sampleRuntime ",1,2,3".toList sampleLocals = ParseOutcome.outOfBounds := by
  decide

theorem orientationIndex_append_one (id : StdString) (c : Char)
    (h : id.length < SIZE_MODULUS) : orientationIndex (id ++ [c]) = id.length := by
  simp only [orientationIndex, sizeMinusOne, List.length_append, List.length_singleton]
  rw [show id.length + 1 + SIZE_MODULUS - 1 = id.length + SIZE_MODULUS by omega,
    Nat.add_mod_right, Nat.mod_eq_of_lt h]

/-- C5, as amended: for an ID without `,` (shorter than `2 ^ 64`, as every `std::string` is),
either orientation, a distance and a pair count in the range of `int`, and a standard-deviation
text without `,`, parsing the formatted record gives back the ID, the orientation, the distance
and the pair count, whatever the numeric locals held before. -/
theorem parseDERecord_formatDERecord {F : Type} (rt : Runtime F) (locals : Locals F)
    (id : VertexID) (comp : EdgeComp) (distance numPairs : Int) (stdDevText : StdString)
    (hid : ',' ∉ id) (hlen : id.length < SIZE_MODULUS) (hsd : ',' ∉ stdDevText)
    (hd : INT_MIN ≤ distance ∧ distance ≤ INT_MAX)
    (hn : INT_MIN ≤ numPairs ∧ numPairs ≤ INT_MAX) :
    parseDERecord rt (formatDERecord id comp distance numPairs stdDevText) locals
      = .parsed ⟨id, comp, distance, numPairs,
          (extractDouble rt stdDevText).getD locals.stdDev⟩ := by
  have hsign : (if comp = EdgeComp.EC_SAME then '+' else '-') ≠ ',' := by
    cases comp <;> decide
  have h0 : ',' ∉ id ++ [if comp = EdgeComp.EC_SAME then '+' else '-'] := by
    simp only [List.mem_append, List.mem_singleton, not_or]
    exact ⟨hid, fun e => hsign e.symm⟩
  have hsplit : split (formatDERecord id comp distance numPairs stdDevText) ','
      = [id ++ [if comp = EdgeComp.EC_SAME then '+' else '-'], decimalText distance,
          decimalText numPairs, stdDevText] := by
    have hform : formatDERecord id comp distance numPairs stdDevText
        = (id ++ [if comp = EdgeComp.EC_SAME then '+' else '-']) ++ ',' ::
            (decimalText distance ++ ',' :: (decimalText numPairs ++ ',' :: stdDevText)) := by
      simp [formatDERecord]
    rw [hform, split_append_delim _ _ _ h0,
      split_append_delim _ _ _ (decimalText_no_comma distance),
      split_append_delim _ _ _ (decimalText_no_comma numPairs), split_no_delim _ _ hsd]
  have hread : readAt (id ++ [if comp = EdgeComp.EC_SAME then '+' else '-']) id.length
      = some (if comp = EdgeComp.EC_SAME then '+' else '-') := by
    simp [readAt]
  rw [parseDERecord, hsplit, parseDEFields_four, orientationIndex_append_one _ _ hlen, hread]
  simp only [extractInt_decimalText _ hd.1 hd.2, extractInt_decimalText _ hn.1 hn.2,
    Option.getD_some]
  cases comp <;> simp [substr0]

theorem parseDERecord_formatDERecord_witness :
    parseDERecord sampleRuntime
        (formatDERecord "contig7".toList .EC_REVERSE (-120) 8 "4.5".toList) sampleLocals
      = .parsed ⟨"contig7".toList, .EC_REVERSE, -120, 8, "4.5".toList⟩ :=
  parseDERecord_formatDERecord sampleRuntime sampleLocals "contig7".toList .EC_REVERSE (-120) 8
    "4.5".toList (by decide) (by decide) (by decide) (by decide) (by decide)

/-- C5, as stated, fails for an integer outside the range of `int`: the distance `2147483648` is
written as `2147483648` and read back as `2147483647`. -/
theorem parseDERecord_formatDERecord_out_of_int_range :
    parseDERecord sampleRuntime
        (formatDERecord "contig7".toList .EC_SAME 2147483648 8 "4.5".toList) sampleLocals
      = .parsed ⟨"contig7".toList, .EC_SAME, 2147483647, 8, "4.5".toList⟩ ∧
    parseDERecord sampleRuntime
        (formatDERecord "contig7".toList .EC_SAME 2147483648 8 "4.5".toList) sampleLocals
      ≠ .parsed ⟨"contig7".toList, .EC_SAME, 2147483648, 8, "4.5".toList⟩ := by
  decide

/-! ## Bigraph::visit -/

theorem visitLoop_logged {S V : Type} (g : Bigraph V) (vf : VisitFunctor S V) :
    ∀ (entries : List (VertexID × V)) (modified : Bool) (s : S) (log : List (VisitCall V)),
      ∃ results : List Bool, results.length = entries.length ∧
        Bigraph.visitLoop g vf.logged entries modified (s, log)
          = ((Bigraph.visitLoop g vf entries modified s).1,
              (Bigraph.visitLoop g vf entries modified s).2,
              log ++ List.zipWith (fun e b => VisitCall.visit e.2 b) entries results) ∧
        ((Bigraph.visitLoop g vf entries modified s).1 = true ↔
          modified = true ∨ true ∈ results) := by
  intro entries
  induction entries with
  | nil =>
    intro modified s log
    exact ⟨[], rfl, by simp [Bigraph.visitLoop], by simp [Bigraph.visitLoop]⟩
  | cons e rest ih =>
    intro modified s log
    obtain ⟨rs, h1, h2, h3⟩ := ih ((vf.visit g e.2 s).1 || modified) (vf.visit g e.2 s).2
      (log ++ [VisitCall.visit e.2 (vf.visit g e.2 s).1])
    refine ⟨(vf.visit g e.2 s).1 :: rs, by simp [h1], ?_, ?_⟩
    · have h2' : Bigraph.visitLoop g vf.logged (e :: rest) modified (s, log) = _ := h2
      rw [h2']
      simp [Bigraph.visitLoop]
    · simp only [Bigraph.visitLoop, h3, Bool.or_eq_true, List.mem_cons]
      constructor
      · rintro ((h | h) | h)
        · exact Or.inr (Or.inl h.symm)
        · exact Or.inl h
        · exact Or.inr (Or.inr h)
      · rintro (h | h | h)
        · exact Or.inl (Or.inr h)
        · exact Or.inl (Or.inl h.symm)
        · exact Or.inr h

/-- C1: for every graph, functor and initial state, the calls made by the functor form of
`Bigraph::visit` are one `previsit`, then one `visit` for each entry of the store in store
order (whatever the earlier calls returned), then one `postvisit`; the result is true exactly
when one of the `visit` calls returned true, so it is false on an empty store; and logging the
calls changes neither the result nor the final state. -/
theorem visit_calls_each_vertex_once {S V : Type} (g : Bigraph V) (vf : VisitFunctor S V)
    (s : S) :
    ∃ results : List Bool, results.length = g.m_vertices.length ∧
      g.visit vf.logged (s, [])
        = ((g.visit vf s).1, (g.visit vf s).2,
            [VisitCall.previsit]
              ++ List.zipWith (fun e b => VisitCall.visit e.2 b) g.m_vertices results
              ++ [VisitCall.postvisit]) ∧
      ((g.visit vf s).1 = true ↔ true ∈ results) := by
  obtain ⟨rs, h1, h2, h3⟩ :=
    visitLoop_logged g vf g.m_vertices false (vf.previsit g s) [VisitCall.previsit]
  refine ⟨rs, h1, ?_, ?_⟩
  · have h2' : Bigraph.visitLoop g vf.logged g.m_vertices false
        (vf.logged.previsit g (s, [])) = _ := h2
    simp only [Bigraph.visit, h2']
    simp [VisitFunctor.logged]
  · simpa [Bigraph.visit] using h3

/-! ## addVertex -/

theorem storeFind_some_mem (id : VertexID) (p : Nat) :
    ∀ l : List (VertexID × Nat), ScaffoldGraph.storeFind id l = some p → (id, p) ∈ l := by
  intro l
  induction l with
  | nil => simp [ScaffoldGraph.storeFind]
  | cons kv rest ih =>
    obtain ⟨k, q⟩ := kv
    intro h
    by_cases hk : k = id
    · simp only [ScaffoldGraph.storeFind, hk, if_true, Option.some.injEq] at h
      simp [hk, h]
    · simp only [ScaffoldGraph.storeFind, hk, if_false] at h
      exact List.mem_cons_of_mem _ (ih h)

theorem storeFind_none_not_mem (id : VertexID) :
    ∀ l : List (VertexID × Nat), ScaffoldGraph.storeFind id l = none → id ∉ l.map Prod.fst := by
  intro l
  induction l with
  | nil => simp
  | cons kv rest ih =>
    obtain ⟨k, q⟩ := kv
    intro h
    by_cases hk : k = id
    · simp [ScaffoldGraph.storeFind, hk] at h
    · simp only [ScaffoldGraph.storeFind, hk, if_false] at h
      simp only [List.map_cons, List.mem_cons, not_or]
      exact ⟨fun e => hk e.symm, ih h⟩

theorem getVertex_mem_storedVertices {F : Type} (g : ScaffoldGraph F) (id : VertexID) (p : Nat)
    (h : g.getVertex id = some p) : p ∈ g.storedVertices :=
  List.mem_map.2 ⟨(id, p), storeFind_some_mem id p _ h, rfl⟩

/-- C8, as amended: when the ID of the vertex is already a key of the store (and is not the empty
string), `ScaffoldGraph::addVertex` returns normally and changes nothing, so the vertex stored
under the ID stays and the new one is not stored; and `addVertex` never leaves two entries with
one key in the store. -/
theorem addVertex_duplicate_keeps_store {F : Type} (g : ScaffoldGraph F) (pVertex : Nat) :
    (∀ v pOld, g.derefVertex pVertex = some v → v.m_id ≠ [] → g.getVertex v.m_id = some pOld →
      g.addVertex pVertex = some g) ∧
    (∀ g1, (g.m_vertices.map Prod.fst).Nodup → g.addVertex pVertex = some g1 →
      (g1.m_vertices.map Prod.fst).Nodup) := by
  constructor
  · intro v pOld hv hid hold
    simp [ScaffoldGraph.addVertex, hv, hid, hold]
  · intro g1 hnd h
    unfold ScaffoldGraph.addVertex at h
    cases hv : g.derefVertex pVertex with
    | none => simp [hv] at h
    | some v =>
      simp only [hv] at h
      by_cases hid : v.m_id = []
      · simp [hid] at h
      · simp only [hid, if_false] at h
        cases hg : g.getVertex v.m_id with
        | some q =>
          simp only [hg, Option.some.injEq] at h
          rw [← h]; exact hnd
        | none =>
          simp only [hg, Option.some.injEq] at h
          rw [← h]
          simp only [List.map_append, List.map_cons, List.map_nil]
          refine List.Nodup.append hnd (List.nodup_singleton _) ?_
          intro k hk hk1
          rw [List.mem_singleton.1 hk1] at hk
          exact storeFind_none_not_mem _ _ hg hk

theorem addVertex_duplicate_keeps_store_witness :
    sampleGraph.addVertex 0 = some sampleGraph ∧
      ((sampleGraph.addNewVertex ['D'] 4 .SVC_UNKNOWN).getD sampleGraph).m_vertices.map Prod.fst
        = [['A'], ['B'], ['C'], ['D']] :=
  ⟨(addVertex_duplicate_keeps_store sampleGraph 0).1 ⟨['A'], 10, .SVC_UNIQUE, []⟩ 0
      (by decide) (by decide) (by decide), by decide⟩

/-- C8, as stated, fails: `A` is a key of the store, and adding a new vertex with the ID `A`
returns normally, with the store unchanged and the new vertex left outside it. -/
theorem addVertex_duplicate_returns_normally :
    sampleGraph.getVertex ['A'] = some 0 ∧
      sampleGraph.addNewVertex ['A'] 25 .SVC_UNKNOWN
        = some { sampleGraph with
            vertexHeap := sampleGraph.vertexHeap ++ [some ⟨['A'], 25, .SVC_UNKNOWN, []⟩] } := by
  decide

/-! ## Heap cells -/

theorem heap_get_append {α : Type} (h : List (Option α)) (x : Option α) (p : Nat) :
    ((h ++ [x]).get? p).join = if p = h.length then x else (h.get? p).join := by
  simp only [List.get?_eq_getElem?]
  rcases Nat.lt_trichotomy p h.length with hp | hp | hp
  · rw [List.getElem?_append_left hp, if_neg (by omega)]
  · subst hp; simp
  · rw [if_neg (by omega), List.getElem?_eq_none (by simp; omega),
      List.getElem?_eq_none (by omega)]

theorem heap_get_set {α : Type} (h : List (Option α)) (x : Option α) (p q : Nat)
    (hp : ((h.get? p).join).isSome) :
    ((h.set p x).get? q).join = if q = p then x else (h.get? q).join := by
  have hlt : p < h.length := by
    by_contra hge
    simp [List.get?_eq_getElem?, List.getElem?_eq_none (not_lt.1 hge)] at hp
  simp only [List.get?_eq_getElem?, List.getElem?_set]
  by_cases hq : q = p
  · subst hq; simp [hlt]
  · rw [if_neg (fun e : p = q => hq e.symm), if_neg hq]

theorem heap_get_lt {α : Type} (h : List (Option α)) (p : Nat) (a : α)
    (hp : (h.get? p).join = some a) : p < h.length := by
  by_contra hge
  simp [List.get?_eq_getElem?, List.getElem?_eq_none (not_lt.1 hge)] at hp

theorem set_two_appended {α : Type} (l : List α) (a b a1 b1 : α) :
    ((l ++ [a] ++ [b]).set l.length a1).set (l.length + 1) b1 = l ++ [a1, b1] := by
  induction l with
  | nil => rfl
  | cons x xs ih => simp [ih]

/-! ## What the loader does with one record -/

theorem derefVertex_set {F : Type} (g : ScaffoldGraph F) (p q : Nat) (x : Option ScaffoldVertex)
    (v : ScaffoldVertex) (hp : g.derefVertex p = some v) :
    ((g.vertexHeap.set p x).get? q).join = if q = p then x else g.derefVertex q :=
  heap_get_set g.vertexHeap x p q (by
    have : (g.vertexHeap.get? p).join = some v := hp
    rw [this]; rfl)

theorem link_chain {F : Type} (g : ScaffoldGraph F) (e1 e2 : ScaffoldEdge F)
    (pVertex1 pVertex2 : Nat) (v1 : ScaffoldVertex) (hne : pVertex1 ≠ pVertex2)
    (hv1 : g.derefVertex pVertex1 = some v1) :
    (((((g.newEdge e1).1.newEdge e2).1.setTwin (g.newEdge e1).2
        ((g.newEdge e1).1.newEdge e2).2).bind
        fun g3 => g3.setTwin ((g.newEdge e1).1.newEdge e2).2 (g.newEdge e1).2).bind
        fun g4 => g4.addEdge pVertex1 (g.newEdge e1).2).bind
        (fun g5 => g5.addEdge pVertex2 ((g.newEdge e1).1.newEdge e2).2)
      = (g.derefVertex pVertex2).map fun v2 =>
          { vertexHeap :=
              (g.vertexHeap.set pVertex1
                (some { v1 with m_edges := v1.m_edges ++ [g.edgeHeap.length] })).set pVertex2
                (some { v2 with m_edges := v2.m_edges ++ [g.edgeHeap.length + 1] })
            edgeHeap := g.edgeHeap ++
              [some { e1 with m_pTwin := some (g.edgeHeap.length + 1) },
                some { e2 with m_pTwin := some g.edgeHeap.length }]
            m_vertices := g.m_vertices } := by
  have hn1 : (g.newEdge e1).2 = g.edgeHeap.length := rfl
  have hn2 : ((g.newEdge e1).1.newEdge e2).2 = g.edgeHeap.length + 1 := by
    simp [ScaffoldGraph.newEdge]
  have hg2 : ((g.newEdge e1).1.newEdge e2).1
      = { g with edgeHeap := g.edgeHeap ++ [some e1] ++ [some e2] } := rfl
  rw [hn1, hn2, hg2]
  have hd1 : ({ g with edgeHeap := g.edgeHeap ++ [some e1] ++ [some e2] } :
      ScaffoldGraph F).derefEdge g.edgeHeap.length = some e1 := by
    show ((g.edgeHeap ++ [some e1] ++ [some e2]).get? g.edgeHeap.length).join = some e1
    rw [heap_get_append, if_neg (by simp), heap_get_append, if_pos rfl]
  have hs1 : ({ g with edgeHeap := g.edgeHeap ++ [some e1] ++ [some e2] } :
      ScaffoldGraph F).setTwin g.edgeHeap.length (g.edgeHeap.length + 1)
      = some (ScaffoldGraph.mk g.vertexHeap
          ((g.edgeHeap ++ [some e1] ++ [some e2]).set g.edgeHeap.length
            (some { e1 with m_pTwin := some (g.edgeHeap.length + 1) })) g.m_vertices) := by
    simp only [ScaffoldGraph.setTwin, hd1]
  rw [hs1, Option.some_bind]
  have hd2 : (ScaffoldGraph.mk g.vertexHeap
      ((g.edgeHeap ++ [some e1] ++ [some e2]).set g.edgeHeap.length
        (some { e1 with m_pTwin := some (g.edgeHeap.length + 1) }))
      g.m_vertices).derefEdge (g.edgeHeap.length + 1) = some e2 := by
    show (((g.edgeHeap ++ [some e1] ++ [some e2]).set g.edgeHeap.length _).get?
      (g.edgeHeap.length + 1)).join = some e2
    have hd1' : ((g.edgeHeap ++ [some e1] ++ [some e2]).get? g.edgeHeap.length).join
        = some e1 := hd1
    rw [heap_get_set _ _ _ _ (by rw [hd1']; rfl), if_neg (by omega), heap_get_append,
      if_pos (by simp)]
  have hs2 : (ScaffoldGraph.mk g.vertexHeap
      ((g.edgeHeap ++ [some e1] ++ [some e2]).set g.edgeHeap.length
        (some { e1 with m_pTwin := some (g.edgeHeap.length + 1) }))
      g.m_vertices).setTwin (g.edgeHeap.length + 1) g.edgeHeap.length
      = some { g with edgeHeap := g.edgeHeap ++
          [some { e1 with m_pTwin := some (g.edgeHeap.length + 1) },
            some { e2 with m_pTwin := some g.edgeHeap.length }] } := by
    simp only [ScaffoldGraph.setTwin, hd2, set_two_appended]
  rw [hs2, Option.some_bind]
  have ha1 : ({ g with edgeHeap := g.edgeHeap ++
      [some { e1 with m_pTwin := some (g.edgeHeap.length + 1) },
        some { e2 with m_pTwin := some g.edgeHeap.length }] } :
      ScaffoldGraph F).addEdge pVertex1 g.edgeHeap.length
      = some (ScaffoldGraph.mk
          (g.vertexHeap.set pVertex1
            (some { v1 with m_edges := v1.m_edges ++ [g.edgeHeap.length] }))
          (g.edgeHeap ++
            [some { e1 with m_pTwin := some (g.edgeHeap.length + 1) },
              some { e2 with m_pTwin := some g.edgeHeap.length }])
          g.m_vertices) := by
    have : ({ g with edgeHeap := g.edgeHeap ++
      [some { e1 with m_pTwin := some (g.edgeHeap.length + 1) },
        some { e2 with m_pTwin := some g.edgeHeap.length }] } :
      ScaffoldGraph F).derefVertex pVertex1 = some v1 := hv1
    simp only [ScaffoldGraph.addEdge, ScaffoldGraph.vertexAddEdge, this]
  rw [ha1, Option.some_bind]
  have hdv : ∀ q, (ScaffoldGraph.mk
          (g.vertexHeap.set pVertex1
            (some { v1 with m_edges := v1.m_edges ++ [g.edgeHeap.length] }))
          (g.edgeHeap ++
            [some { e1 with m_pTwin := some (g.edgeHeap.length + 1) },
              some { e2 with m_pTwin := some g.edgeHeap.length }])
          g.m_vertices).derefVertex q
      = if q = pVertex1 then some { v1 with m_edges := v1.m_edges ++ [g.edgeHeap.length] }
        else g.derefVertex q := fun q => derefVertex_set g pVertex1 q _ v1 hv1
  simp only [ScaffoldGraph.addEdge, ScaffoldGraph.vertexAddEdge, hdv, if_neg (Ne.symm hne)]
  cases g.derefVertex pVertex2 <;> rfl

theorem linkRecord_cases {F : Type} (g g1 : ScaffoldGraph F)
    (rootID : VertexID) (currDir : EdgeDir) (r : DERecord F)
    (h : g.linkRecord rootID currDir r = some g1) :
    g1 = g ∨ ∃ pVertex1 pVertex2 v1 v2,
      g.getVertex rootID = some pVertex1 ∧ g.getVertex r.id = some pVertex2 ∧
      pVertex1 ≠ pVertex2 ∧ g.derefVertex pVertex1 = some v1 ∧
      g.derefVertex pVertex2 = some v2 ∧
      g.findEdgeTo pVertex1 r.id .SET_DISTANCEEST = some none ∧
      g1 = g.linked pVertex1 pVertex2 v1 v2 currDir r := by
  unfold ScaffoldGraph.linkRecord at h
  cases h1 : g.getVertex rootID with
  | none =>
    simp only [h1, Option.some.injEq] at h
    exact Or.inl h.symm
  | some pVertex1 =>
    cases h2 : g.getVertex r.id with
    | none =>
      simp only [h1, h2, Option.some.injEq] at h
      exact Or.inl h.symm
    | some pVertex2 =>
      simp only [h1, h2] at h
      by_cases hne : pVertex1 = pVertex2
      · simp only [hne, if_true, Option.some.injEq] at h
        exact Or.inl h.symm
      · simp only [hne, if_false] at h
        cases hf : g.findEdgeTo pVertex1 r.id .SET_DISTANCEEST with
        | none => simp [hf] at h
        | some found =>
          cases found with
          | some e =>
            simp only [hf, Option.some.injEq] at h
            exact Or.inl h.symm
          | none =>
            simp only [hf] at h
            obtain ⟨v1, hv1⟩ : ∃ v1, g.derefVertex pVertex1 = some v1 := by
              cases hv : g.derefVertex pVertex1 with
              | none => simp [ScaffoldGraph.findEdgeTo, hv] at hf
              | some v => exact ⟨v, rfl⟩
            rw [link_chain g _ _ pVertex1 pVertex2 v1 hne hv1] at h
            cases hv2 : g.derefVertex pVertex2 with
            | none => simp [hv2] at h
            | some v2 =>
              simp only [hv2, Option.map_some', Option.some.injEq] at h
              exact Or.inr ⟨pVertex1, pVertex2, v1, v2, rfl, rfl, hne, hv1, hv2, hf, h.symm⟩

theorem processRecord_cases {F : Type} (rt : Runtime F) (g g1 : ScaffoldGraph F)
    (locals locals1 : Locals F) (rootID : VertexID) (currDir : EdgeDir) (record : StdString)
    (h : ScaffoldGraph.processRecord rt g locals rootID currDir record = some (g1, locals1)) :
    ∃ r, parseDERecord rt record locals = .parsed r ∧
      locals1 = ⟨r.distance, r.numPairs, r.stdDev⟩ ∧
      g.linkRecord rootID currDir r = some g1 := by
  unfold ScaffoldGraph.processRecord at h
  cases hr : parseDERecord rt record locals with
  | exit1 => simp [hr] at h
  | outOfBounds => simp [hr] at h
  | parsed r =>
    simp only [hr] at h
    cases hl : g.linkRecord rootID currDir r with
    | none => simp [hl] at h
    | some g2 =>
      simp only [hl, Option.some.injEq, Prod.mk.injEq] at h
      exact ⟨r, rfl, h.2.symm, h.1 ▸ hl⟩

theorem processRecord_of_link {F : Type} (rt : Runtime F) (g g1 : ScaffoldGraph F)
    (locals : Locals F) (rootID : VertexID) (currDir : EdgeDir) (record : StdString)
    (r : DERecord F) (hr : parseDERecord rt record locals = .parsed r)
    (hl : g.linkRecord rootID currDir r = some g1) :
    ScaffoldGraph.processRecord rt g locals rootID currDir record
      = some (g1, ⟨r.distance, r.numPairs, r.stdDev⟩) := by
  simp [ScaffoldGraph.processRecord, hr, hl]

theorem linkRecord_self {F : Type} (g : ScaffoldGraph F)
    (rootID : VertexID) (currDir : EdgeDir) (r : DERecord F) (hid : r.id = rootID) :
    g.linkRecord rootID currDir r = some g := by
  unfold ScaffoldGraph.linkRecord
  simp only [hid]
  cases h1 : g.getVertex rootID with
  | none => rfl
  | some pVertex1 => simp

theorem linkRecord_duplicate {F : Type} (g : ScaffoldGraph F)
    (rootID : VertexID) (currDir : EdgeDir) (r : DERecord F)
    (pVertex1 pEdge : Nat) (h1 : g.getVertex rootID = some pVertex1)
    (hf : g.findEdgeTo pVertex1 r.id .SET_DISTANCEEST = some (some pEdge)) :
    g.linkRecord rootID currDir r = some g := by
  unfold ScaffoldGraph.linkRecord
  simp only [h1]
  cases h2 : g.getVertex r.id with
  | none => rfl
  | some pVertex2 =>
    by_cases hne : pVertex1 = pVertex2
    · simp [hne]
    · simp [hne, hf]

/-! ## The state after a pair of edges was created -/

section Linked

variable {F : Type} (g : ScaffoldGraph F) (pVertex1 pVertex2 : Nat) (v1 v2 : ScaffoldVertex)
  (currDir : EdgeDir) (r : DERecord F)

theorem linked_derefEdge (q : Nat) :
    (g.linked pVertex1 pVertex2 v1 v2 currDir r).derefEdge q
      = if q = g.edgeHeap.length + 1 then
          some ⟨pVertex1, (correctDir currDir r.comp).opposite, r.comp, r.distance, r.stdDev,
            r.numPairs, .SET_DISTANCEEST, some g.edgeHeap.length⟩
        else if q = g.edgeHeap.length then
          some ⟨pVertex2, currDir, r.comp, r.distance, r.stdDev, r.numPairs, .SET_DISTANCEEST,
            some (g.edgeHeap.length + 1)⟩
        else g.derefEdge q := by
  show ((g.edgeHeap ++ [_, _]).get? q).join = _
  rw [show ∀ (a b : Option (ScaffoldEdge F)), g.edgeHeap ++ [a, b] = (g.edgeHeap ++ [a]) ++ [b]
    from fun a b => by simp, heap_get_append, heap_get_append]
  simp only [List.length_append, List.length_singleton]
  rfl

theorem linked_derefEdge_old (q : Nat) (e : ScaffoldEdge F) (h : g.derefEdge q = some e) :
    (g.linked pVertex1 pVertex2 v1 v2 currDir r).derefEdge q = some e := by
  have hlt : q < g.edgeHeap.length := heap_get_lt _ _ _ h
  rw [linked_derefEdge, if_neg (by omega), if_neg (by omega), h]

theorem linked_derefVertex (hne : pVertex1 ≠ pVertex2) (hv1 : g.derefVertex pVertex1 = some v1)
    (hv2 : g.derefVertex pVertex2 = some v2) (q : Nat) :
    (g.linked pVertex1 pVertex2 v1 v2 currDir r).derefVertex q
      = if q = pVertex2 then some { v2 with m_edges := v2.m_edges ++ [g.edgeHeap.length + 1] }
        else if q = pVertex1 then some { v1 with m_edges := v1.m_edges ++ [g.edgeHeap.length] }
        else g.derefVertex q := by
  have h1 : ∀ q, ((g.vertexHeap.set pVertex1
      (some { v1 with m_edges := v1.m_edges ++ [g.edgeHeap.length] })).get? q).join
      = if q = pVertex1 then some { v1 with m_edges := v1.m_edges ++ [g.edgeHeap.length] }
        else g.derefVertex q := fun q => derefVertex_set g pVertex1 q _ v1 hv1
  show (((g.vertexHeap.set pVertex1 _).set pVertex2 _).get? q).join = _
  rw [heap_get_set _ _ _ _ (by rw [h1, if_neg (Ne.symm hne), hv2]; rfl), h1]

theorem linked_edgesOf (hne : pVertex1 ≠ pVertex2) (hv1 : g.derefVertex pVertex1 = some v1)
    (hv2 : g.derefVertex pVertex2 = some v2) (q : Nat) :
    (g.linked pVertex1 pVertex2 v1 v2 currDir r).edgesOf q
      = if q = pVertex2 then g.edgesOf q ++ [g.edgeHeap.length + 1]
        else if q = pVertex1 then g.edgesOf q ++ [g.edgeHeap.length]
        else g.edgesOf q := by
  unfold ScaffoldGraph.edgesOf
  rw [linked_derefVertex g pVertex1 pVertex2 v1 v2 currDir r hne hv1 hv2]
  by_cases h2 : q = pVertex2
  · simp [h2, hv2]
  · by_cases h1 : q = pVertex1
    · simp [h1, hne, hv1]
    · simp [h1, h2]

theorem linked_storedVertices :
    (g.linked pVertex1 pVertex2 v1 v2 currDir r).storedVertices = g.storedVertices := rfl

theorem linked_twinOk_old (p e : Nat) (h : g.twinOk p e = true) :
    (g.linked pVertex1 pVertex2 v1 v2 currDir r).twinOk p e = true := by
  unfold ScaffoldGraph.twinOk at h ⊢
  cases he : g.derefEdge e with
  | none => simp [he] at h
  | some ed =>
    simp only [he] at h
    cases ht : ed.m_pTwin with
    | none => simp [ht] at h
    | some t =>
      simp only [ht] at h
      cases htd : g.derefEdge t with
      | none => simp [htd] at h
      | some td =>
        simp only [htd] at h
        simp only [linked_derefEdge_old g pVertex1 pVertex2 v1 v2 currDir r e ed he, ht,
          linked_derefEdge_old g pVertex1 pVertex2 v1 v2 currDir r t td htd]
        exact h

theorem linked_twinOk_first :
    (g.linked pVertex1 pVertex2 v1 v2 currDir r).twinOk pVertex1 g.edgeHeap.length = true := by
  unfold ScaffoldGraph.twinOk
  simp [linked_derefEdge]

theorem linked_twinOk_second :
    (g.linked pVertex1 pVertex2 v1 v2 currDir r).twinOk pVertex2 (g.edgeHeap.length + 1)
      = true := by
  unfold ScaffoldGraph.twinOk
  simp [linked_derefEdge]

theorem linked_twinSymmetric (hne : pVertex1 ≠ pVertex2)
    (hv1 : g.derefVertex pVertex1 = some v1) (hv2 : g.derefVertex pVertex2 = some v2)
    (h : g.TwinSymmetric) : (g.linked pVertex1 pVertex2 v1 v2 currDir r).TwinSymmetric := by
  intro p hp e he
  rw [linked_edgesOf g pVertex1 pVertex2 v1 v2 currDir r hne hv1 hv2] at he
  have hold : e ∈ g.edgesOf p →
      (g.linked pVertex1 pVertex2 v1 v2 currDir r).twinOk p e = true :=
    fun hm => linked_twinOk_old g pVertex1 pVertex2 v1 v2 currDir r p e (h p hp e hm)
  by_cases h2 : p = pVertex2
  · rw [if_pos h2] at he
    rcases List.mem_append.1 he with hm | hm
    · exact hold hm
    · rw [List.mem_singleton.1 hm, h2]
      exact linked_twinOk_second g pVertex1 pVertex2 v1 v2 currDir r
  · rw [if_neg h2] at he
    by_cases h1 : p = pVertex1
    · rw [if_pos h1] at he
      rcases List.mem_append.1 he with hm | hm
      · exact hold hm
      · rw [List.mem_singleton.1 hm, h1]
        exact linked_twinOk_first g pVertex1 pVertex2 v1 v2 currDir r
    · rw [if_neg h1] at he
      exact hold he

end Linked

/-! ## Lifting a property of one record to the whole load -/

theorem processFields_preserves {F : Type} (rt : Runtime F) (P : ScaffoldGraph F → Prop)
    (hstep : ∀ g g1 locals locals1 rootID currDir record, P g →
      ScaffoldGraph.processRecord rt g locals rootID currDir record = some (g1, locals1) →
      P g1)
    (rootID : VertexID) :
    ∀ (fields : List StdString) (currDir : EdgeDir) (st st1 : ScaffoldGraph F × Locals F),
      P st.1 → ScaffoldGraph.processFields rt rootID fields currDir st = some st1 → P st1.1 := by
  intro fields
  induction fields with
  | nil =>
    intro currDir st st1 hP h
    simp only [ScaffoldGraph.processFields, Option.some.injEq] at h
    exact h ▸ hP
  | cons record rest ih =>
    intro currDir st st1 hP h
    unfold ScaffoldGraph.processFields at h
    by_cases hsemi : record = [';']
    · simp only [hsemi, if_true] at h
      exact ih _ _ _ hP h
    · simp only [hsemi, if_false] at h
      cases hrec : ScaffoldGraph.processRecord rt st.1 st.2 rootID currDir record with
      | none => simp [hrec] at h
      | some st2 =>
        simp only [hrec] at h
        exact ih _ _ _ (hstep _ _ _ _ _ _ _ hP hrec) h

theorem processLines_preserves {F : Type} (rt : Runtime F) (P : ScaffoldGraph F → Prop)
    (hstep : ∀ g g1 locals locals1 rootID currDir record, P g →
      ScaffoldGraph.processRecord rt g locals rootID currDir record = some (g1, locals1) →
      P g1) :
    ∀ (lines : List StdString) (st st1 : ScaffoldGraph F × Locals F), P st.1 →
      ScaffoldGraph.processLines rt lines st = some st1 → P st1.1 := by
  intro lines
  induction lines with
  | nil =>
    intro st st1 hP h
    simp only [ScaffoldGraph.processLines, Option.some.injEq] at h
    exact h ▸ hP
  | cons line rest ih =>
    intro st st1 hP h
    unfold ScaffoldGraph.processLines at h
    cases hline : ScaffoldGraph.processLine rt st line with
    | none => simp [hline] at h
    | some st2 =>
      simp only [hline] at h
      refine ih _ _ ?_ h
      unfold ScaffoldGraph.processLine at hline
      split_ifs at hline
      cases hs : split line ' ' with
      | nil => simp [hs] at hline
      | cons rootID fields =>
        simp only [hs] at hline
        exact processFields_preserves rt P hstep rootID fields _ _ _ hP hline

theorem load_preserves {F : Type} (rt : Runtime F) (P : ScaffoldGraph F → Prop)
    (hstep : ∀ g g1 locals locals1 rootID currDir record, P g →
      ScaffoldGraph.processRecord rt g locals rootID currDir record = some (g1, locals1) →
      P g1)
    (g g1 : ScaffoldGraph F) (locals : Locals F) (text : StdString) (hP : P g)
    (hload : g.loadDistanceEstimateEdges rt locals text = some g1) : P g1 := by
  unfold ScaffoldGraph.loadDistanceEstimateEdges at hload
  cases hl : ScaffoldGraph.processLines rt (getlines text) (g, locals) with
  | none => simp [hl] at hload
  | some st1 =>
    simp only [hl, Option.map_some', Option.some.injEq] at hload
    exact hload ▸ processLines_preserves rt P hstep (getlines text) (g, locals) st1 hP hl

theorem linkRecord_twinSymmetric {F : Type} (g g1 : ScaffoldGraph F)
    (rootID : VertexID) (currDir : EdgeDir) (r : DERecord F) (h : g.TwinSymmetric)
    (hrec : g.linkRecord rootID currDir r = some g1) : g1.TwinSymmetric := by
  rcases linkRecord_cases g g1 rootID currDir r hrec with
    rfl | ⟨p1, p2, v1, v2, _, _, hne, hv1, hv2, _, rfl⟩
  · exact h
  · exact linked_twinSymmetric g p1 p2 v1 v2 currDir r hne hv1 hv2 h

theorem processRecord_twinSymmetric {F : Type} (rt : Runtime F) (g g1 : ScaffoldGraph F)
    (locals locals1 : Locals F) (rootID : VertexID) (currDir : EdgeDir) (record : StdString)
    (h : g.TwinSymmetric)
    (hrec : ScaffoldGraph.processRecord rt g locals rootID currDir record
      = some (g1, locals1)) :
    g1.TwinSymmetric := by
  obtain ⟨r, _, _, hl⟩ := processRecord_cases rt g g1 locals locals1 rootID currDir record hrec
  exact linkRecord_twinSymmetric g g1 rootID currDir r h hl

/-! ## The structural invariant -/

theorem WellLinked_live {F : Type} {g : ScaffoldGraph F} {adj : Nat → List Nat}
    (h : ScaffoldGraph.WellLinked g adj) (p : Nat) (hp : p ∈ g.storedVertices) :
    ∃ v, g.derefVertex p = some v := by
  obtain ⟨kv, hkv, rfl⟩ := List.mem_map.1 hp
  obtain ⟨v, hv, _⟩ := h.ids kv hkv
  exact ⟨v, hv⟩

theorem wellFormed_empty {F : Type} : (ScaffoldGraph.empty : ScaffoldGraph F).WellFormed where
  keys_nodup := List.nodup_nil
  ptrs_nodup := List.nodup_nil
  ids := fun kv hkv => absurd hkv (List.not_mem_nil kv)
  loose := fun _ _ => rfl
  adj_nodup := fun p hp => absurd hp (List.not_mem_nil p)
  paired := fun p hp => absurd hp (List.not_mem_nil p)

theorem wellFormed_noDangling {F : Type} (g : ScaffoldGraph F) (h : g.WellFormed) :
    g.NoDangling := by
  intro p hp e he
  obtain ⟨ed, t, td, h1, _, _, _, _, _, h7, _⟩ := h.paired p hp e he
  obtain ⟨w, hw⟩ := WellLinked_live h _ h7
  simp [ScaffoldGraph.endStored, h1, h7, hw]

theorem wellFormed_twinSymmetric {F : Type} (g : ScaffoldGraph F) (h : g.WellFormed) :
    g.TwinSymmetric := by
  intro p hp e he
  obtain ⟨ed, t, td, h1, h2, h3, h4, h5, _⟩ := h.paired p hp e he
  simp [ScaffoldGraph.twinOk, h1, h2, h3, h4, h5]

theorem newVertex_derefVertex {F : Type} (g : ScaffoldGraph F) (v : ScaffoldVertex) (q : Nat) :
    (g.newVertex v).1.derefVertex q
      = if q = g.vertexHeap.length then some v else g.derefVertex q :=
  heap_get_append g.vertexHeap (some v) q

theorem derefVertex_lt {F : Type} (g : ScaffoldGraph F) (q : Nat) (v : ScaffoldVertex)
    (h : g.derefVertex q = some v) : q < g.vertexHeap.length :=
  heap_get_lt _ _ _ h

theorem newVertex_edgesOf {F : Type} (g : ScaffoldGraph F) (v : ScaffoldVertex) (q : Nat) :
    (g.newVertex v).1.edgesOf q = if q = g.vertexHeap.length then v.m_edges else g.edgesOf q := by
  simp only [ScaffoldGraph.edgesOf, newVertex_derefVertex]
  split_ifs <;> rfl

theorem wellFormed_newVertex {F : Type} (g : ScaffoldGraph F) (v : ScaffoldVertex)
    (hv : v.m_edges = []) (h : g.WellFormed) : (g.newVertex v).1.WellFormed := by
  have hlt : ∀ q ∈ g.storedVertices, q ≠ g.vertexHeap.length := by
    intro q hq
    obtain ⟨w, hw⟩ := WellLinked_live h q hq
    have := derefVertex_lt g q w hw
    omega
  have hold : ∀ q ∈ g.storedVertices, (g.newVertex v).1.edgesOf q = g.edgesOf q := by
    intro q hq
    rw [newVertex_edgesOf, if_neg (hlt q hq)]
  refine ⟨h.keys_nodup, h.ptrs_nodup, ?_, ?_, ?_, ?_⟩
  · intro kv hkv
    obtain ⟨w, hw, hid⟩ := h.ids kv hkv
    have := derefVertex_lt g kv.2 w hw
    exact ⟨w, by rw [newVertex_derefVertex, if_neg (by omega), hw], hid⟩
  · intro q hq
    rw [newVertex_edgesOf]
    split_ifs
    · exact hv
    · exact h.loose q hq
  · intro q hq
    rw [hold q hq]
    exact h.adj_nodup q hq
  · intro q hq e he
    rw [hold q hq] at he
    obtain ⟨ed, t, td, h1, h2, h3, h4, h5, h6, h7, h8⟩ := h.paired q hq e he
    exact ⟨ed, t, td, h1, h2, h3, h4, h5, h6, h7, by rw [hold _ h7]; exact h8⟩

theorem storeFind_mem_ne_none (id : VertexID) (l : List (VertexID × Nat))
    (h : id ∈ l.map Prod.fst) : ScaffoldGraph.storeFind id l ≠ none :=
  fun hn => storeFind_none_not_mem id l hn h

theorem wellFormed_addVertex {F : Type} (g g1 : ScaffoldGraph F) (pVertex : Nat)
    (h : g.WellFormed) (hadd : g.addVertex pVertex = some g1) : g1.WellFormed := by
  unfold ScaffoldGraph.addVertex at hadd
  cases hd : g.derefVertex pVertex with
  | none => simp [hd] at hadd
  | some v =>
    simp only [hd] at hadd
    by_cases hid : v.m_id = []
    · simp [hid] at hadd
    · simp only [hid, if_false] at hadd
      cases hg : g.getVertex v.m_id with
      | some q =>
        simp only [hg, Option.some.injEq] at hadd
        exact hadd ▸ h
      | none =>
        simp only [hg, Option.some.injEq] at hadd
        subst hadd
        have hfresh : pVertex ∉ g.storedVertices := by
          intro hm
          obtain ⟨kv, hkv, hkv2⟩ := List.mem_map.1 hm
          obtain ⟨w, hw, hwid⟩ := h.ids kv hkv
          rw [hkv2, hd] at hw
          have hkey : v.m_id ∈ g.m_vertices.map Prod.fst :=
            List.mem_map.2 ⟨kv, hkv, by rw [← hwid, Option.some.inj hw]⟩
          exact storeFind_mem_ne_none _ _ hkey hg
        have hst : ∀ q, q ∈ ({ g with m_vertices := g.m_vertices ++ [(v.m_id, pVertex)] } :
            ScaffoldGraph F).storedVertices ↔ q ∈ g.storedVertices ∨ q = pVertex := by
          intro q
          simp [ScaffoldGraph.storedVertices]
        have hnew : g.edgesOf pVertex = [] := h.loose pVertex hfresh
        refine ⟨?_, ?_, ?_, ?_, ?_, ?_⟩
        · show ((g.m_vertices ++ [(v.m_id, pVertex)]).map Prod.fst).Nodup
          rw [List.map_append]
          refine List.Nodup.append h.keys_nodup (List.nodup_singleton _) ?_
          intro k hk hk1
          simp only [List.map_cons, List.map_nil, List.mem_singleton] at hk1
          rw [hk1] at hk
          exact storeFind_none_not_mem _ _ hg hk
        · show ((g.m_vertices ++ [(v.m_id, pVertex)]).map Prod.snd).Nodup
          rw [List.map_append]
          refine List.Nodup.append h.ptrs_nodup (List.nodup_singleton _) ?_
          intro k hk hk1
          simp only [List.map_cons, List.map_nil, List.mem_singleton] at hk1
          rw [hk1] at hk
          exact hfresh hk
        · intro kv hkv
          have hkv' : kv ∈ g.m_vertices ++ [(v.m_id, pVertex)] := hkv
          rcases List.mem_append.1 hkv' with hm | hm
          · exact h.ids kv hm
          · rw [List.mem_singleton.1 hm]
            exact ⟨v, hd, rfl⟩
        · intro q hq
          exact h.loose q (fun hm => hq ((hst q).2 (Or.inl hm)))
        · intro q hq
          rcases (hst q).1 hq with hq | hq
          · exact h.adj_nodup q hq
          · show (g.edgesOf q).Nodup
            rw [hq, hnew]; exact List.nodup_nil
        · intro q hq e he
          rcases (hst q).1 hq with hq | hq
          · obtain ⟨ed, t, td, h1, h2, h3, h4, h5, h6, h7, h8⟩ := h.paired q hq e he
            exact ⟨ed, t, td, h1, h2, h3, h4, h5, h6, (hst _).2 (Or.inl h7), h8⟩
          · have he' : e ∈ g.edgesOf q := he
            rw [hq, hnew] at he'
            exact absurd he' (List.not_mem_nil e)

theorem derefEdge_lt {F : Type} (g : ScaffoldGraph F) (q : Nat) (e : ScaffoldEdge F)
    (h : g.derefEdge q = some e) : q < g.edgeHeap.length :=
  heap_get_lt _ _ _ h

theorem wellFormed_edge_lt {F : Type} (g : ScaffoldGraph F) (h : g.WellFormed) (p e : Nat)
    (hp : p ∈ g.storedVertices) (he : e ∈ g.edgesOf p) : e < g.edgeHeap.length := by
  obtain ⟨ed, _, _, h1, _⟩ := h.paired p hp e he
  exact derefEdge_lt g e ed h1

theorem wellFormed_linked {F : Type} (g : ScaffoldGraph F) (pVertex1 pVertex2 : Nat)
    (v1 v2 : ScaffoldVertex) (currDir : EdgeDir) (r : DERecord F) (hne : pVertex1 ≠ pVertex2)
    (hv1 : g.derefVertex pVertex1 = some v1) (hv2 : g.derefVertex pVertex2 = some v2)
    (hs1 : pVertex1 ∈ g.storedVertices) (hs2 : pVertex2 ∈ g.storedVertices)
    (h : g.WellFormed) : (g.linked pVertex1 pVertex2 v1 v2 currDir r).WellFormed := by
  have hedges := linked_edgesOf g pVertex1 pVertex2 v1 v2 currDir r hne hv1 hv2
  have hsub : ∀ q e, e ∈ g.edgesOf q →
      e ∈ (g.linked pVertex1 pVertex2 v1 v2 currDir r).edgesOf q := by
    intro q e he
    rw [hedges]
    split_ifs
    · exact List.mem_append_left _ he
    · exact List.mem_append_left _ he
    · exact he
  have hold : ∀ q ∈ g.storedVertices, ∀ e ∈ g.edgesOf q,
      ScaffoldGraph.PairedEdge (g.linked pVertex1 pVertex2 v1 v2 currDir r)
        (g.linked pVertex1 pVertex2 v1 v2 currDir r).edgesOf q e := by
    intro q hq e he
    obtain ⟨ed, t, td, h1, h2, h3, h4, h5, h6, h7, h8⟩ := h.paired q hq e he
    exact ⟨ed, t, td, linked_derefEdge_old g _ _ _ _ _ _ e ed h1, h2,
      linked_derefEdge_old g _ _ _ _ _ _ t td h3, h4, h5, h6, h7, hsub _ _ h8⟩
  have hfirst : ScaffoldGraph.PairedEdge (g.linked pVertex1 pVertex2 v1 v2 currDir r)
      (g.linked pVertex1 pVertex2 v1 v2 currDir r).edgesOf pVertex1 g.edgeHeap.length := by
    refine ⟨(⟨pVertex2, currDir, r.comp, r.distance, r.stdDev, r.numPairs, .SET_DISTANCEEST,
      some (g.edgeHeap.length + 1)⟩ : ScaffoldEdge F), g.edgeHeap.length + 1,
      (⟨pVertex1, (correctDir currDir r.comp).opposite, r.comp, r.distance, r.stdDev,
      r.numPairs, .SET_DISTANCEEST, some g.edgeHeap.length⟩ : ScaffoldEdge F), ?_, rfl, ?_, rfl, rfl, Ne.symm hne, hs2, ?_⟩
    · rw [linked_derefEdge, if_neg (by omega), if_pos rfl]
    · rw [linked_derefEdge, if_pos rfl]
    · rw [hedges, if_pos rfl]
      exact List.mem_append_right _ (List.mem_singleton_self _)
  have hsecond : ScaffoldGraph.PairedEdge (g.linked pVertex1 pVertex2 v1 v2 currDir r)
      (g.linked pVertex1 pVertex2 v1 v2 currDir r).edgesOf pVertex2 (g.edgeHeap.length + 1) := by
    refine ⟨(⟨pVertex1, (correctDir currDir r.comp).opposite, r.comp, r.distance, r.stdDev,
      r.numPairs, .SET_DISTANCEEST, some g.edgeHeap.length⟩ : ScaffoldEdge F), g.edgeHeap.length,
      (⟨pVertex2, currDir, r.comp, r.distance, r.stdDev, r.numPairs, .SET_DISTANCEEST,
      some (g.edgeHeap.length + 1)⟩ : ScaffoldEdge F), ?_, rfl, ?_, rfl, rfl, hne, hs1, ?_⟩
    · rw [linked_derefEdge, if_pos rfl]
    · rw [linked_derefEdge, if_neg (by omega), if_pos rfl]
    · rw [hedges, if_neg hne, if_pos rfl]
      exact List.mem_append_right _ (List.mem_singleton_self _)
  refine ⟨h.keys_nodup, h.ptrs_nodup, ?_, ?_, ?_, ?_⟩
  · intro kv hkv
    obtain ⟨w, hw, hid⟩ := h.ids kv hkv
    rw [linked_derefVertex g pVertex1 pVertex2 v1 v2 currDir r hne hv1 hv2]
    split_ifs with h2 h1
    · rw [h2, hv2] at hw
      exact ⟨_, rfl, by rw [← hid, ← Option.some.inj hw]⟩
    · rw [h1, hv1] at hw
      exact ⟨_, rfl, by rw [← hid, ← Option.some.inj hw]⟩
    · exact ⟨w, hw, hid⟩
  · intro q hq
    have hq' : q ∉ g.storedVertices := hq
    rw [hedges, if_neg (fun e : q = pVertex2 => hq' (e ▸ hs2)),
      if_neg (fun e : q = pVertex1 => hq' (e ▸ hs1))]
    exact h.loose q hq'
  · intro q hq
    have hq' : q ∈ g.storedVertices := hq
    have hlt : ∀ e ∈ g.edgesOf q, e < g.edgeHeap.length :=
      fun e he => wellFormed_edge_lt g h q e hq' he
    have hnd := h.adj_nodup q hq'
    rw [hedges]
    split_ifs
    · refine List.Nodup.append hnd (List.nodup_singleton _) ?_
      intro e he he1
      have := hlt e he
      rw [List.mem_singleton.1 he1] at this
      omega
    · refine List.Nodup.append hnd (List.nodup_singleton _) ?_
      intro e he he1
      have := hlt e he
      rw [List.mem_singleton.1 he1] at this
      omega
    · exact hnd
  · intro q hq e he
    have hq' : q ∈ g.storedVertices := hq
    rw [hedges] at he
    by_cases h2 : q = pVertex2
    · rw [if_pos h2] at he
      rcases List.mem_append.1 he with hm | hm
      · exact hold q hq' e hm
      · rw [List.mem_singleton.1 hm, h2]; exact hsecond
    · rw [if_neg h2] at he
      by_cases h1 : q = pVertex1
      · rw [if_pos h1] at he
        rcases List.mem_append.1 he with hm | hm
        · exact hold q hq' e hm
        · rw [List.mem_singleton.1 hm, h1]; exact hfirst
      · rw [if_neg h1] at he
        exact hold q hq' e he

theorem processRecord_wellFormed {F : Type} (rt : Runtime F) (g g1 : ScaffoldGraph F)
    (locals locals1 : Locals F) (rootID : VertexID) (currDir : EdgeDir) (record : StdString)
    (h : g.WellFormed)
    (hrec : ScaffoldGraph.processRecord rt g locals rootID currDir record
      = some (g1, locals1)) :
    g1.WellFormed := by
  obtain ⟨r, _, _, hl⟩ := processRecord_cases rt g g1 locals locals1 rootID currDir record hrec
  rcases linkRecord_cases g g1 rootID currDir r hl with
    rfl | ⟨p1, p2, v1, v2, hg1, hg2, hne, hv1, hv2, _, rfl⟩
  · exact h
  · exact wellFormed_linked g p1 p2 v1 v2 currDir r hne hv1 hv2
      (getVertex_mem_storedVertices g _ _ hg1) (getVertex_mem_storedVertices g _ _ hg2) h

theorem loadDistanceEstimateEdges_wellFormed {F : Type} (rt : Runtime F)
    (g g1 : ScaffoldGraph F) (locals : Locals F) (text : StdString) (h : g.WellFormed)
    (hload : g.loadDistanceEstimateEdges rt locals text = some g1) : g1.WellFormed :=
  load_preserves rt ScaffoldGraph.WellFormed
    (fun g g1 locals locals1 rootID currDir record hP hrec =>
      processRecord_wellFormed rt g g1 locals locals1 rootID currDir record hP hrec)
    g g1 locals text h hload

/-! ## Deleting the edges of a vertex and their twins -/

theorem heap_get_set_none {α : Type} (h : List (Option α)) (p q : Nat) :
    ((h.set p none).get? q).join = if q = p then none else (h.get? q).join := by
  simp only [List.get?_eq_getElem?, List.getElem?_set]
  by_cases hq : q = p
  · subst hq
    by_cases hlt : q < h.length
    · simp [hlt]
    · simp [hlt, List.getElem?_eq_none (not_lt.1 hlt)]
  · rw [if_neg (fun e : p = q => hq e.symm), if_neg hq]

/-- The state after one round of the loop of `deleteEdgesAndTwins`, written out. -/
theorem deleteEdgesAndTwinsLoop_cons {F : Type} (g : ScaffoldGraph F) (e t : Nat)
    (rest : List Nat) (ed : ScaffoldEdge F) (vq : ScaffoldVertex)
    (he : g.derefEdge e = some ed) (ht : ed.m_pTwin = some t)
    (hq : g.derefVertex ed.m_pEnd = some vq) :
    ScaffoldGraph.deleteEdgesAndTwinsLoop (e :: rest) g
      = ScaffoldGraph.deleteEdgesAndTwinsLoop rest
          (ScaffoldGraph.mk
            (g.vertexHeap.set ed.m_pEnd (some { vq with m_edges := vq.m_edges.erase t }))
            ((g.edgeHeap.set t none).set e none) g.m_vertices) := by
  rw [ScaffoldGraph.deleteEdgesAndTwinsLoop]
  simp only [he, ht, ScaffoldGraph.vertexDeleteEdge, hq]
  rfl

section DeleteStep

variable {F : Type} (g : ScaffoldGraph F) (e t q : Nat) (vq : ScaffoldVertex)

theorem step_derefEdge (x : Nat) :
    (ScaffoldGraph.mk (g.vertexHeap.set q (some { vq with m_edges := vq.m_edges.erase t }))
        ((g.edgeHeap.set t none).set e none) g.m_vertices).derefEdge x
      = if x = e then none else if x = t then none else g.derefEdge x := by
  show ((((g.edgeHeap.set t none).set e none)).get? x).join = _
  rw [heap_get_set_none, heap_get_set_none]
  rfl

theorem step_derefVertex (hq : g.derefVertex q = some vq) (x : Nat) :
    (ScaffoldGraph.mk (g.vertexHeap.set q (some { vq with m_edges := vq.m_edges.erase t }))
        ((g.edgeHeap.set t none).set e none) g.m_vertices).derefVertex x
      = if x = q then some { vq with m_edges := vq.m_edges.erase t } else g.derefVertex x :=
  derefVertex_set g q x _ vq hq

theorem step_edgesOf (hq : g.derefVertex q = some vq) (x : Nat) :
    (ScaffoldGraph.mk (g.vertexHeap.set q (some { vq with m_edges := vq.m_edges.erase t }))
        ((g.edgeHeap.set t none).set e none) g.m_vertices).edgesOf x
      = if x = q then (g.edgesOf x).erase t else g.edgesOf x := by
  unfold ScaffoldGraph.edgesOf
  rw [step_derefVertex g e t q vq hq]
  by_cases hx : x = q
  · simp [hx, hq]
  · simp [hx]

end DeleteStep

theorem wellLinked_step {F : Type} (g : ScaffoldGraph F) (p e : Nat) (es : List Nat)
    (hp : p ∈ g.storedVertices) (h : ScaffoldGraph.WellLinked g (g.edgesExcept p (e :: es))) :
    ∃ ed t vq, g.derefEdge e = some ed ∧ ed.m_pTwin = some t ∧
      g.derefVertex ed.m_pEnd = some vq ∧
      ScaffoldGraph.WellLinked
        (ScaffoldGraph.mk
          (g.vertexHeap.set ed.m_pEnd (some { vq with m_edges := vq.m_edges.erase t }))
          ((g.edgeHeap.set t none).set e none) g.m_vertices)
        ((ScaffoldGraph.mk
          (g.vertexHeap.set ed.m_pEnd (some { vq with m_edges := vq.m_edges.erase t }))
          ((g.edgeHeap.set t none).set e none) g.m_vertices).edgesExcept p es) := by
  have hadjp : g.edgesExcept p (e :: es) p = e :: es := if_pos rfl
  have hadj : ∀ x, x ≠ p → g.edgesExcept p (e :: es) x = g.edgesOf x := fun x hx => if_neg hx
  obtain ⟨ed, t, td, h1, h2, h3, h4, h5, h6, h7, h8⟩ :=
    h.paired p hp e (by rw [hadjp]; exact List.mem_cons_self _ _)
  obtain ⟨vq, hvq⟩ := WellLinked_live h _ h7
  refine ⟨ed, t, vq, h1, h2, hvq, ?_⟩
  -- abbreviations
  have hE := step_derefEdge g e t ed.m_pEnd vq
  have hV := step_derefVertex g e t ed.m_pEnd vq hvq
  have hA := step_edgesOf g e t ed.m_pEnd vq hvq
  generalize hg2 : (ScaffoldGraph.mk
      (g.vertexHeap.set ed.m_pEnd (some { vq with m_edges := vq.m_edges.erase t }))
      ((g.edgeHeap.set t none).set e none) g.m_vertices) = g2 at hE hV hA ⊢
  have hst : g2.storedVertices = g.storedVertices := by rw [← hg2]; rfl
  have hkeys : g2.m_vertices = g.m_vertices := by rw [← hg2]
  have hnd := h.adj_nodup p hp
  rw [hadjp] at hnd
  have hadj2 : ∀ x, g2.edgesExcept p es x
      = if x = p then es else if x = ed.m_pEnd then (g.edgesOf x).erase t else g.edgesOf x := by
    intro x
    unfold ScaffoldGraph.edgesExcept
    rw [hA]
  have hsub : ∀ x y, y ∈ g2.edgesExcept p es x → y ∈ g.edgesExcept p (e :: es) x := by
    intro x y hy
    rw [hadj2] at hy
    by_cases hx : x = p
    · rw [if_pos hx] at hy
      rw [hx, hadjp]; exact List.mem_cons_of_mem _ hy
    · rw [if_neg hx] at hy
      rw [hadj x hx]
      by_cases hx2 : x = ed.m_pEnd
      · rw [if_pos hx2] at hy; exact List.mem_of_mem_erase hy
      · rw [if_neg hx2] at hy; exact hy
  refine ⟨by rw [hkeys]; exact h.keys_nodup, by rw [hst]; exact h.ptrs_nodup, ?_, ?_, ?_, ?_⟩
  · intro kv hkv
    rw [hkeys] at hkv
    obtain ⟨w, hw, hid⟩ := h.ids kv hkv
    rw [hV]
    split_ifs with hx
    · rw [hx, hvq] at hw
      exact ⟨_, rfl, by rw [← hid, ← Option.some.inj hw]⟩
    · exact ⟨w, hw, hid⟩
  · intro x hx
    rw [hst] at hx
    rw [hA, if_neg (fun e : x = ed.m_pEnd => hx (e ▸ h7))]
    exact h.loose x hx
  · intro x hx
    rw [hst] at hx
    have hx' := h.adj_nodup x hx
    rw [hadj2]
    by_cases hxp : x = p
    · rw [if_pos hxp]; exact (List.nodup_cons.1 hnd).2
    · rw [if_neg hxp]
      rw [hadj x hxp] at hx'
      split_ifs
      · exact hx'.erase t
      · exact hx'
  · intro x hx y hy
    rw [hst] at hx
    obtain ⟨yd, u, ud, k1, k2, k3, k4, k5, k6, k7, k8⟩ := h.paired x hx y (hsub x y hy)
    have hye : y ≠ e := by
      intro hyeq
      subst hyeq
      have hxp : x = p := by
        have : yd = ed := Option.some.inj (k1.symm.trans h1)
        subst this
        have hut : u = t := Option.some.inj (k2.symm.trans h2)
        subst hut
        have : ud = td := Option.some.inj (k3.symm.trans h3)
        subst this
        exact k5.symm.trans h5
      rw [hadj2, if_pos hxp] at hy
      exact (List.nodup_cons.1 hnd).1 hy
    have hyt : y ≠ t := by
      intro hyeq
      subst hyeq
      have h31 : yd = td := Option.some.inj (k1.symm.trans h3)
      subst h31
      have hue : u = e := Option.some.inj (k2.symm.trans h4)
      subst hue
      have h13 : ud = ed := Option.some.inj (k3.symm.trans h1)
      subst h13
      have hxq : x = ud.m_pEnd := k5.symm
      have hxp : x ≠ p := by rw [hxq]; exact h6
      have hx' := h.adj_nodup x hx
      rw [hadj x hxp] at hx'
      rw [hadj2, if_neg hxp, if_pos hxq] at hy
      exact (List.Nodup.mem_erase_iff hx').1 hy |>.1 rfl
    have hue : u ≠ e := by
      intro hueq
      subst hueq
      have : ud = ed := Option.some.inj (k3.symm.trans h1)
      subst this
      exact hyt (Option.some.inj (k4.symm.trans h2))
    have hut : u ≠ t := by
      intro hueq
      subst hueq
      have : ud = td := Option.some.inj (k3.symm.trans h3)
      subst this
      exact hye (Option.some.inj (k4.symm.trans h4))
    refine ⟨yd, u, ud, ?_, k2, ?_, k4, k5, k6, by rw [hst]; exact k7, ?_⟩
    · rw [hE, if_neg hye, if_neg hyt, k1]
    · rw [hE, if_neg hue, if_neg hut, k3]
    · rw [hadj2]
      by_cases hyp : yd.m_pEnd = p
      · rw [if_pos hyp]
        rw [hyp, hadjp] at k8
        rcases List.mem_cons.1 k8 with hk | hk
        · exact absurd hk hue
        · exact hk
      · rw [if_neg hyp]
        rw [hadj _ hyp] at k8
        split_ifs
        · exact (List.mem_erase_of_ne hut).2 k8
        · exact k8

theorem deleteEdgesAndTwinsLoop_wellLinked {F : Type} (p : Nat) :
    ∀ (todo : List Nat) (g : ScaffoldGraph F), p ∈ g.storedVertices →
      ScaffoldGraph.WellLinked g (g.edgesExcept p todo) →
      ∃ g1, ScaffoldGraph.deleteEdgesAndTwinsLoop todo g = some g1 ∧
        ScaffoldGraph.WellLinked g1 (g1.edgesExcept p []) ∧ g1.m_vertices = g.m_vertices := by
  intro todo
  induction todo with
  | nil =>
    intro g _ h
    exact ⟨g, rfl, h, rfl⟩
  | cons e es ih =>
    intro g hp h
    obtain ⟨ed, t, vq, h1, h2, h3, hw⟩ := wellLinked_step g p e es hp h
    obtain ⟨g1, k1, k2, k3⟩ := ih (ScaffoldGraph.mk
      (g.vertexHeap.set ed.m_pEnd (some { vq with m_edges := vq.m_edges.erase t }))
      ((g.edgeHeap.set t none).set e none) g.m_vertices) hp hw
    exact ⟨g1, by rw [deleteEdgesAndTwinsLoop_cons g e t es ed vq h1 h2 h3]; exact k1, k2, k3⟩

theorem edgesExcept_self {F : Type} (g : ScaffoldGraph F) (p : Nat) :
    g.edgesExcept p (g.edgesOf p) = g.edgesOf := by
  funext x
  unfold ScaffoldGraph.edgesExcept
  split_ifs with hx
  · rw [hx]
  · rfl

theorem deleteEdgesAndTwins_wellFormed {F : Type} (g : ScaffoldGraph F) (p : Nat)
    (hp : p ∈ g.storedVertices) (h : g.WellFormed) :
    ∃ g1, g.deleteEdgesAndTwins p = some g1 ∧ g1.WellFormed ∧ g1.m_vertices = g.m_vertices ∧
      g1.edgesOf p = [] := by
  obtain ⟨v, hv⟩ := WellLinked_live h p hp
  have h0 : ScaffoldGraph.WellLinked g (g.edgesExcept p v.m_edges) := by
    have : v.m_edges = g.edgesOf p := by simp [ScaffoldGraph.edgesOf, hv]
    rw [this, edgesExcept_self]; exact h
  obtain ⟨g1, k1, k2, k3⟩ := deleteEdgesAndTwinsLoop_wellLinked p v.m_edges g hp h0
  have hst : g1.storedVertices = g.storedVertices := by
    unfold ScaffoldGraph.storedVertices; rw [k3]
  obtain ⟨v1, hv1⟩ := WellLinked_live k2 p (by rw [hst]; exact hp)
  have hV : ∀ x, (ScaffoldGraph.mk (g1.vertexHeap.set p (some { v1 with m_edges := [] }))
      g1.edgeHeap g1.m_vertices).derefVertex x
      = if x = p then some { v1 with m_edges := [] } else g1.derefVertex x :=
    fun x => derefVertex_set g1 p x _ v1 hv1
  have hA : (ScaffoldGraph.mk (g1.vertexHeap.set p (some { v1 with m_edges := [] }))
      g1.edgeHeap g1.m_vertices).edgesOf = g1.edgesExcept p [] := by
    funext x
    unfold ScaffoldGraph.edgesOf ScaffoldGraph.edgesExcept
    rw [hV]
    by_cases hx : x = p
    · simp [hx]
    · simp [hx, ScaffoldGraph.edgesOf]
  refine ⟨ScaffoldGraph.mk (g1.vertexHeap.set p (some { v1 with m_edges := [] }))
      g1.edgeHeap g1.m_vertices, ?_, ?_, k3, ?_⟩
  · simp only [ScaffoldGraph.deleteEdgesAndTwins, hv, k1, hv1]
  · unfold ScaffoldGraph.WellFormed
    rw [hA]
    refine ⟨k2.keys_nodup, k2.ptrs_nodup, ?_, ?_, k2.adj_nodup, ?_⟩
    · intro kv hkv
      obtain ⟨w, hw, hid⟩ := k2.ids kv hkv
      rw [hV]
      split_ifs with hx
      · rw [hx, hv1] at hw
        exact ⟨_, rfl, by rw [← hid, ← Option.some.inj hw]⟩
      · exact ⟨w, hw, hid⟩
    · intro x hx
      have hx' : x ∉ g1.storedVertices := hx
      have hxp : x ≠ p := fun e => hx' (by rw [e, hst]; exact hp)
      rw [congrFun hA x, ScaffoldGraph.edgesExcept, if_neg hxp]
      exact k2.loose x hx'
    · intro x hx y hy
      exact k2.paired x hx y hy
  · rw [hA]
    exact if_pos rfl

theorem mem_storeErase {F : Type} (g : ScaffoldGraph F) (id : VertexID) (p : Nat)
    (hk : (g.m_vertices.map Prod.fst).Nodup) (hpn : g.storedVertices.Nodup)
    (hmem : (id, p) ∈ g.m_vertices) (x : Nat) :
    x ∈ (g.storeErase id).storedVertices ↔ x ∈ g.storedVertices ∧ x ≠ p := by
  simp only [ScaffoldGraph.storedVertices, ScaffoldGraph.storeErase, List.mem_map,
    List.mem_filter, decide_eq_true_eq]
  constructor
  · rintro ⟨kv, ⟨hkv, hne⟩, rfl⟩
    refine ⟨⟨kv, hkv, rfl⟩, ?_⟩
    intro hx
    have : kv = (id, p) := List.inj_on_of_nodup_map hpn hkv hmem hx
    exact hne (by rw [this])
  · rintro ⟨⟨kv, hkv, rfl⟩, hne⟩
    refine ⟨kv, ⟨hkv, ?_⟩, rfl⟩
    intro hid
    have : kv = (id, p) := List.inj_on_of_nodup_map hk hkv hmem hid
    exact hne (by rw [this])

theorem wellFormed_delete_isolated {F : Type} (g : ScaffoldGraph F) (id : VertexID) (p : Nat)
    (hmem : (id, p) ∈ g.m_vertices) (h : g.WellFormed) (hnone : g.edgesOf p = []) :
    ((g.deleteVertexObject p).storeErase id).WellFormed := by
  have hst : ∀ x, x ∈ ((g.deleteVertexObject p).storeErase id).storedVertices
      ↔ x ∈ g.storedVertices ∧ x ≠ p :=
    fun x => mem_storeErase (g.deleteVertexObject p) id p h.keys_nodup h.ptrs_nodup hmem x
  have hV : ∀ x, ((g.deleteVertexObject p).storeErase id).derefVertex x
      = if x = p then none else g.derefVertex x :=
    fun x => heap_get_set_none g.vertexHeap p x
  have hA : ∀ x, x ≠ p → ((g.deleteVertexObject p).storeErase id).edgesOf x = g.edgesOf x := by
    intro x hx
    unfold ScaffoldGraph.edgesOf
    rw [hV, if_neg hx]
  refine ⟨?_, ?_, ?_, ?_, ?_, ?_⟩
  · exact h.keys_nodup.sublist (List.Sublist.map _ (List.filter_sublist _))
  · exact h.ptrs_nodup.sublist (List.Sublist.map _ (List.filter_sublist _))
  · intro kv hkv
    have hkv1 : kv ∈ g.m_vertices := (List.mem_filter.1 hkv).1
    have hx2 : kv.2 ≠ p := ((hst kv.2).1 (List.mem_map.2 ⟨kv, hkv, rfl⟩)).2
    rw [hV, if_neg hx2]
    exact h.ids kv hkv1
  · intro x hx
    by_cases hxp : x = p
    · unfold ScaffoldGraph.edgesOf
      rw [hV, if_pos hxp]
    · rw [hA x hxp]
      exact h.loose x (fun hm => hx ((hst x).2 ⟨hm, hxp⟩))
  · intro x hx
    obtain ⟨hx1, hx2⟩ := (hst x).1 hx
    rw [hA x hx2]
    exact h.adj_nodup x hx1
  · intro x hx y hy
    obtain ⟨hx1, hx2⟩ := (hst x).1 hx
    rw [hA x hx2] at hy
    obtain ⟨yd, u, ud, k1, k2, k3, k4, k5, k6, k7, k8⟩ := h.paired x hx1 y hy
    have hend : yd.m_pEnd ≠ p := by
      intro hp
      rw [hp, hnone] at k8
      exact List.not_mem_nil _ k8
    exact ⟨yd, u, ud, k1, k2, k3, k4, k5, k6, (hst _).2 ⟨k7, hend⟩, by rw [hA _ hend]; exact k8⟩

theorem deleteVerticesLoop_wellFormed {F : Type} (c : ScaffoldVertexClassification) :
    ∀ (entries : List (VertexID × Nat)) (g : ScaffoldGraph F), g.WellFormed →
      (∀ kv ∈ entries, kv ∈ g.m_vertices) → (entries.map Prod.fst).Nodup →
      ∃ g1, ScaffoldGraph.deleteVerticesLoop c entries g = some g1 ∧ g1.WellFormed := by
  intro entries
  induction entries with
  | nil =>
    intro g h _ _
    exact ⟨g, rfl, h⟩
  | cons kv rest ih =>
    obtain ⟨id, p⟩ := kv
    intro g h hsub hnd
    have hmem : (id, p) ∈ g.m_vertices := hsub _ (List.mem_cons_self _ _)
    have hp : p ∈ g.storedVertices := List.mem_map.2 ⟨(id, p), hmem, rfl⟩
    obtain ⟨v, hv⟩ := WellLinked_live h p hp
    have hrest : ∀ kv ∈ rest, kv ∈ g.m_vertices :=
      fun kv hkv => hsub kv (List.mem_cons_of_mem _ hkv)
    rw [List.map_cons, List.nodup_cons] at hnd
    unfold ScaffoldGraph.deleteVerticesLoop
    simp only [hv]
    by_cases hc : v.m_classification = c
    · simp only [hc, if_true]
      obtain ⟨g1, k1, k2, k3, k4⟩ := deleteEdgesAndTwins_wellFormed g p hp h
      simp only [k1]
      refine ih _ (wellFormed_delete_isolated g1 id p (by rw [k3]; exact hmem) k2 k4) ?_ hnd.2
      intro kv hkv
      show kv ∈ List.filter (fun kv => decide (kv.1 ≠ id)) (g1.deleteVertexObject p).m_vertices
      rw [List.mem_filter]
      refine ⟨by show kv ∈ g1.m_vertices; rw [k3]; exact hrest kv hkv, ?_⟩
      simp only [ne_eq, decide_eq_true_eq]
      intro hid
      exact hnd.1 (List.mem_map.2 ⟨kv, hkv, hid⟩)
    · simp only [hc, if_false]
      exact ih g h hrest hnd.2

theorem deleteVertices_wellFormed {F : Type} (g : ScaffoldGraph F)
    (c : ScaffoldVertexClassification) (h : g.WellFormed) :
    ∃ g1, g.deleteVertices c = some g1 ∧ g1.WellFormed :=
  deleteVerticesLoop_wellFormed c g.m_vertices g h (fun _ hkv => hkv) h.keys_nodup

theorem reachable_wellFormed {F : Type} (rt : Runtime F) (g : ScaffoldGraph F)
    (h : ScaffoldGraph.Reachable rt g) : g.WellFormed := by
  induction h with
  | empty => exact wellFormed_empty
  | newVertex id seqLen c _ ih => exact wellFormed_newVertex _ _ rfl ih
  | addVertex pVertex _ hadd ih => exact wellFormed_addVertex _ _ pVertex ih hadd
  | load locals text _ hload ih =>
    exact loadDistanceEstimateEdges_wellFormed rt _ _ locals text ih hload
  | deleteVertices c _ hdel ih =>
    obtain ⟨g2, h2, hw⟩ := deleteVertices_wellFormed _ c ih
    rw [h2] at hdel
    exact Option.some.inj hdel ▸ hw

/-! ## Properties of the loader -/

theorem linked_ne {F : Type} (g : ScaffoldGraph F) (pVertex1 pVertex2 : Nat)
    (v1 v2 : ScaffoldVertex) (currDir : EdgeDir) (r : DERecord F) :
    g.linked pVertex1 pVertex2 v1 v2 currDir r ≠ g := by
  intro h
  have := congrArg (fun x => x.edgeHeap.length) h
  simp [ScaffoldGraph.linked] at this

/-- What holds when `processRecord` changed the graph: the record parsed, the root ID and the
target ID resolve to two different stored vertices, and the new graph has two more edges, at the
next two addresses, the first appended to the edges of the root vertex, the second to those of
the target vertex. -/
theorem processRecord_created {F : Type} (rt : Runtime F) (g g1 : ScaffoldGraph F)
    (locals locals1 : Locals F) (rootID : VertexID) (currDir : EdgeDir) (record : StdString)
    (h : ScaffoldGraph.processRecord rt g locals rootID currDir record = some (g1, locals1))
    (hne : g1 ≠ g) :
    ∃ r pVertex1 pVertex2, parseDERecord rt record locals = .parsed r ∧
      g.getVertex rootID = some pVertex1 ∧ g.getVertex r.id = some pVertex2 ∧
      pVertex1 ≠ pVertex2 ∧ g1.m_vertices = g.m_vertices ∧
      (∀ q, g1.edgesOf q
        = if q = pVertex2 then g.edgesOf q ++ [g.edgeHeap.length + 1]
          else if q = pVertex1 then g.edgesOf q ++ [g.edgeHeap.length]
          else g.edgesOf q) ∧
      (∀ q, g1.derefEdge q
        = if q = g.edgeHeap.length + 1 then
            some ⟨pVertex1, (correctDir currDir r.comp).opposite, r.comp, r.distance, r.stdDev,
              r.numPairs, .SET_DISTANCEEST, some g.edgeHeap.length⟩
          else if q = g.edgeHeap.length then
            some ⟨pVertex2, currDir, r.comp, r.distance, r.stdDev, r.numPairs,
              .SET_DISTANCEEST, some (g.edgeHeap.length + 1)⟩
          else g.derefEdge q) := by
  obtain ⟨r, hr, _, hl⟩ := processRecord_cases rt g g1 locals locals1 rootID currDir record h
  rcases linkRecord_cases g g1 rootID currDir r hl with
    rfl | ⟨p1, p2, v1, v2, hg1, hg2, hp, hv1, hv2, _, rfl⟩
  · exact absurd rfl hne
  · exact ⟨r, p1, p2, hr, hg1, hg2, hp, rfl,
      linked_edgesOf g p1 p2 v1 v2 currDir r hp hv1 hv2,
      linked_derefEdge g p1 p2 v1 v2 currDir r⟩

theorem processFields_append {F : Type} (rt : Runtime F) (rootID : VertexID) :
    ∀ (xs ys : List StdString) (currDir : EdgeDir) (st : ScaffoldGraph F × Locals F),
      ScaffoldGraph.processFields rt rootID (xs ++ ys) currDir st
        = (ScaffoldGraph.processFields rt rootID xs currDir st).bind fun st1 =>
            ScaffoldGraph.processFields rt rootID ys (ScaffoldGraph.dirAfter xs currDir) st1 := by
  intro xs
  induction xs with
  | nil => intro ys currDir st; rfl
  | cons x rest ih =>
    intro ys currDir st
    by_cases hx : x = [';']
    · rw [List.cons_append, ScaffoldGraph.processFields, if_pos hx, ScaffoldGraph.processFields,
        if_pos hx, ScaffoldGraph.dirAfter, if_pos hx]
      exact ih ys currDir.opposite st
    · rw [List.cons_append, ScaffoldGraph.processFields, if_neg hx, ScaffoldGraph.processFields,
        if_neg hx, ScaffoldGraph.dirAfter, if_neg hx]
      cases hrec : ScaffoldGraph.processRecord rt st.1 st.2 rootID currDir x with
      | none => rfl
      | some st2 => exact ih ys currDir st2

theorem processLines_append {F : Type} (rt : Runtime F) :
    ∀ (xs ys : List StdString) (st : ScaffoldGraph F × Locals F),
      ScaffoldGraph.processLines rt (xs ++ ys) st
        = (ScaffoldGraph.processLines rt xs st).bind fun st1 =>
            ScaffoldGraph.processLines rt ys st1 := by
  intro xs
  induction xs with
  | nil => intro ys st; rfl
  | cons x rest ih =>
    intro ys st
    simp only [List.cons_append, ScaffoldGraph.processLines]
    cases hline : ScaffoldGraph.processLine rt st x with
    | none => rfl
    | some st2 => exact ih ys st2

theorem opposite_opposite (d : EdgeDir) : d.opposite.opposite = d := by
  cases d <;> rfl

theorem dirAfter_parity : ∀ (fields : List StdString) (currDir : EdgeDir),
    ScaffoldGraph.dirAfter fields currDir
      = if fields.count [';'] % 2 = 0 then currDir else currDir.opposite := by
  intro fields
  induction fields with
  | nil => intro currDir; rfl
  | cons x rest ih =>
    intro currDir
    by_cases hx : x = [';']
    · subst hx
      simp only [ScaffoldGraph.dirAfter, if_true, ih, List.count_cons_self, opposite_opposite]
      rcases Nat.mod_two_eq_zero_or_one (List.count [';'] rest) with h | h
      · rw [if_pos h, if_neg (by omega)]
      · rw [if_neg (by omega), if_pos (by omega)]
    · have hc : List.count [';'] (x :: rest) = List.count [';'] rest :=
        List.count_cons_of_ne (fun e => hx e.symm) rest
      simp only [ScaffoldGraph.dirAfter, hx, if_false, ih, hc]

/-- C2: `loadDistanceEstimateEdges` preserves twin symmetry, every graph built from the empty
graph by constructing vertices, `addVertex` and loading is twin symmetric, and a record either
leaves the graph as it is or adds exactly one pair of edges, one to the root vertex and one to
the target vertex, each the twin of the other. -/
theorem loadDistanceEstimateEdges_preserves_twinSymmetric {F : Type} (rt : Runtime F) :
    (∀ (g g1 : ScaffoldGraph F) (locals : Locals F) (text : StdString), g.TwinSymmetric →
      g.loadDistanceEstimateEdges rt locals text = some g1 → g1.TwinSymmetric) ∧
    (∀ g : ScaffoldGraph F, ScaffoldGraph.Loaded rt g → g.TwinSymmetric) ∧
    (∀ (g g1 : ScaffoldGraph F) (locals locals1 : Locals F) (rootID : VertexID)
      (currDir : EdgeDir) (record : StdString),
      ScaffoldGraph.processRecord rt g locals rootID currDir record = some (g1, locals1) →
      g1 = g ∨ ∃ pVertex1 pVertex2 e1 e2, pVertex1 ≠ pVertex2 ∧
        g1.edgeHeap = g.edgeHeap ++ [some e1, some e2] ∧
        e1.m_pTwin = some (g.edgeHeap.length + 1) ∧ e2.m_pTwin = some g.edgeHeap.length ∧
        e1.m_pEnd = pVertex2 ∧ e2.m_pEnd = pVertex1 ∧
        g1.edgesOf pVertex1 = g.edgesOf pVertex1 ++ [g.edgeHeap.length] ∧
        g1.edgesOf pVertex2 = g.edgesOf pVertex2 ++ [g.edgeHeap.length + 1] ∧
        ∀ q, q ≠ pVertex1 → q ≠ pVertex2 → g1.edgesOf q = g.edgesOf q) := by
  have hload : ∀ (g g1 : ScaffoldGraph F) (locals : Locals F) (text : StdString),
      g.TwinSymmetric → g.loadDistanceEstimateEdges rt locals text = some g1 →
      g1.TwinSymmetric :=
    fun g g1 locals text h hl =>
      load_preserves rt ScaffoldGraph.TwinSymmetric
        (fun g g1 locals locals1 rootID currDir record hP hrec =>
          processRecord_twinSymmetric rt g g1 locals locals1 rootID currDir record hP hrec)
        g g1 locals text h hl
  refine ⟨hload, ?_, ?_⟩
  · intro g hg
    refine wellFormed_twinSymmetric g ?_
    induction hg with
    | empty => exact wellFormed_empty
    | newVertex id seqLen c _ ih => exact wellFormed_newVertex _ _ rfl ih
    | addVertex pVertex _ hadd ih => exact wellFormed_addVertex _ _ pVertex ih hadd
    | load locals text _ hl ih =>
      exact loadDistanceEstimateEdges_wellFormed rt _ _ locals text ih hl
  · intro g g1 locals locals1 rootID currDir record h
    obtain ⟨r, hr, _, hl⟩ := processRecord_cases rt g g1 locals locals1 rootID currDir record h
    rcases linkRecord_cases g g1 rootID currDir r hl with
      rfl | ⟨p1, p2, v1, v2, hg1, hg2, hp, hv1, hv2, _, rfl⟩
    · exact Or.inl rfl
    · have hed := linked_edgesOf g p1 p2 v1 v2 currDir r hp hv1 hv2
      refine Or.inr ⟨p1, p2, _, _, hp, rfl, rfl, rfl, rfl, rfl, ?_, ?_, ?_⟩
      · rw [hed, if_neg hp, if_pos rfl]
      · rw [hed, if_pos rfl]
      · intro q h1 h2
        rw [hed, if_neg h2, if_neg h1]

theorem loadDistanceEstimateEdges_preserves_twinSymmetric_witness :
    sampleGraph.TwinSymmetric ∧
      sampleGraph.loadDistanceEstimateEdges sampleRuntime sampleLocals sampleText
        = some sampleLoaded ∧
      sampleLoaded.TwinSymmetric :=
  ⟨by decide, by decide,
    (loadDistanceEstimateEdges_preserves_twinSymmetric sampleRuntime).1 sampleGraph sampleLoaded
      sampleLocals sampleText (by decide) (by decide)⟩

/-- C3: every graph reachable from the empty graph by constructing vertices, `addVertex`, loading
distance estimates and deleting the vertices of a classification has no dangling reference: every
edge held by a stored vertex ends at a live vertex of the store; on such a
graph `deleteVertices` returns, for every classification; and the loader creates an edge only
when the root ID and the target ID both resolve to stored vertices. -/
theorem reachable_noDangling {F : Type} (rt : Runtime F) :
    (∀ g : ScaffoldGraph F, ScaffoldGraph.Reachable rt g → g.NoDangling) ∧
    (∀ (g : ScaffoldGraph F) (c : ScaffoldVertexClassification), ScaffoldGraph.Reachable rt g →
      ∃ g1, g.deleteVertices c = some g1 ∧ g1.NoDangling) ∧
    (∀ (g g1 : ScaffoldGraph F) (locals locals1 : Locals F) (rootID : VertexID)
      (currDir : EdgeDir) (record : StdString),
      ScaffoldGraph.processRecord rt g locals rootID currDir record = some (g1, locals1) →
      g1 ≠ g →
      ∃ r pVertex1 pVertex2, parseDERecord rt record locals = .parsed r ∧
        g.getVertex rootID = some pVertex1 ∧ g.getVertex r.id = some pVertex2 ∧
        pVertex1 ∈ g.storedVertices ∧ pVertex2 ∈ g.storedVertices) := by
  refine ⟨fun g hg => wellFormed_noDangling g (reachable_wellFormed rt g hg), ?_, ?_⟩
  · intro g c hg
    obtain ⟨g1, h1, h2⟩ := deleteVertices_wellFormed g c (reachable_wellFormed rt g hg)
    exact ⟨g1, h1, wellFormed_noDangling g1 h2⟩
  · intro g g1 locals locals1 rootID currDir record h hne
    obtain ⟨r, p1, p2, hr, hg1, hg2, _⟩ :=
      processRecord_created rt g g1 locals locals1 rootID currDir record h hne
    exact ⟨r, p1, p2, hr, hg1, hg2, getVertex_mem_storedVertices g _ _ hg1,
      getVertex_mem_storedVertices g _ _ hg2⟩

theorem reachable_noDangling_witness :
    ScaffoldGraph.Reachable sampleRuntime sampleDeleted ∧ sampleDeleted.NoDangling := by
  have h1 : ScaffoldGraph.Reachable sampleRuntime
      (⟨[some ⟨['A'], 10, .SVC_UNIQUE, []⟩], [], [(['A'], 0)]⟩ : ScaffoldGraph StdString) :=
    .addVertex 0 (.newVertex ['A'] 10 .SVC_UNIQUE .empty) (by decide)
  have h2 : ScaffoldGraph.Reachable sampleRuntime
      (⟨[some ⟨['A'], 10, .SVC_UNIQUE, []⟩, some ⟨['B'], 10, .SVC_REPEAT, []⟩], [],
        [(['A'], 0), (['B'], 1)]⟩ : ScaffoldGraph StdString) :=
    .addVertex 1 (.newVertex ['B'] 10 .SVC_REPEAT h1) (by decide)
  have h3 : ScaffoldGraph.Reachable sampleRuntime sampleGraph :=
    .addVertex 2 (.newVertex ['C'] 10 .SVC_UNIQUE h2) (by decide)
  have h4 : ScaffoldGraph.Reachable sampleRuntime sampleLoaded :=
    .load sampleLocals sampleText h3 (by decide)
  have h5 : ScaffoldGraph.Reachable sampleRuntime sampleDeleted :=
    .deleteVertices .SVC_REPEAT h4 (by decide)
  exact ⟨h5, (reachable_noDangling sampleRuntime).1 sampleDeleted h5⟩

/-- C6: on a line whose fields after the root ID are `before`, then a record that is not `;`,
then `after`, the record is processed after the fields `before`, with the direction that is
antisense when `before` holds an even number of `;` fields and sense when it holds an odd
number (the direction starts as antisense on every line); an edge the record creates on the
root vertex has that direction; and a field `;` changes nothing but the direction. -/
theorem semicolon_switches_direction {F : Type} (rt : Runtime F)
    (st : ScaffoldGraph F × Locals F) (line : StdString) (rootID : VertexID)
    (before after : List StdString) (record : StdString)
    (hassert : substr0 line 4 ≠ ['M', 'a', 't', 'e'])
    (hsplit : split line ' ' = rootID :: (before ++ record :: after))
    (hrec : record ≠ [';']) :
    ScaffoldGraph.processLine rt st line
        = ((ScaffoldGraph.processFields rt rootID before .ED_ANTISENSE st).bind fun st1 =>
            ScaffoldGraph.processRecord rt st1.1 st1.2 rootID
              (ScaffoldGraph.dirBySemicolons (before.count [';'])) record).bind
            (fun st2 => ScaffoldGraph.processFields rt rootID after
              (ScaffoldGraph.dirBySemicolons (before.count [';'])) st2) ∧
      (∀ (g1 g2 : ScaffoldGraph F) (locals1 locals2 : Locals F),
        ScaffoldGraph.processRecord rt g1 locals1 rootID
          (ScaffoldGraph.dirBySemicolons (before.count [';'])) record = some (g2, locals2) →
        g2 ≠ g1 →
        ∃ pRoot e, g1.getVertex rootID = some pRoot ∧
          g2.edgesOf pRoot = g1.edgesOf pRoot ++ [g1.edgeHeap.length] ∧
          g2.derefEdge g1.edgeHeap.length = some e ∧
          e.m_dir = ScaffoldGraph.dirBySemicolons (before.count [';'])) ∧
      (∀ (rest : List StdString) (d : EdgeDir) (st1 : ScaffoldGraph F × Locals F),
        ScaffoldGraph.processFields rt rootID ([';'] :: rest) d st1
          = ScaffoldGraph.processFields rt rootID rest d.opposite st1) := by
  have hdir : ScaffoldGraph.dirAfter before .ED_ANTISENSE
      = ScaffoldGraph.dirBySemicolons (before.count [';']) := by
    rw [dirAfter_parity]; rfl
  refine ⟨?_, ?_, ?_⟩
  · rw [ScaffoldGraph.processLine, if_neg hassert, hsplit]
    simp only []
    rw [processFields_append, hdir]
    cases hb : ScaffoldGraph.processFields rt rootID before .ED_ANTISENSE st with
    | none => rfl
    | some stb =>
      simp only [Option.some_bind]
      rw [ScaffoldGraph.processFields, if_neg hrec]
      cases hr : ScaffoldGraph.processRecord rt stb.1 stb.2 rootID
          (ScaffoldGraph.dirBySemicolons (before.count [';'])) record with
      | none => rfl
      | some st2 => rfl
  · intro g1 g2 locals1 locals2 h hne
    obtain ⟨r, p1, p2, _, hg1, _, hp, _, hE, hD⟩ :=
      processRecord_created rt g1 g2 locals1 locals2 rootID _ record h hne
    refine ⟨p1, (⟨p2, ScaffoldGraph.dirBySemicolons (before.count [';']), r.comp, r.distance,
      r.stdDev, r.numPairs, .SET_DISTANCEEST, some (g1.edgeHeap.length + 1)⟩ :
      ScaffoldEdge F), hg1, ?_, ?_, rfl⟩
    · rw [hE, if_neg hp, if_pos rfl]
    · rw [hD, if_neg (by omega), if_pos rfl]
  · intro rest d st1
    rw [ScaffoldGraph.processFields, if_pos rfl]

theorem semicolon_switches_direction_witness :
    ScaffoldGraph.dirBySemicolons (List.count [';'] ["B+,10,3,1.5".toList, [';']]) = .ED_SENSE ∧
    ScaffoldGraph.processLine sampleRuntime (sampleGraph, sampleLocals)
        "A B+,10,3,1.5 ; C-,20,2,0.5".toList
      = ((ScaffoldGraph.processFields sampleRuntime ['A'] ["B+,10,3,1.5".toList, [';']]
            .ED_ANTISENSE (sampleGraph, sampleLocals)).bind fun st1 =>
          ScaffoldGraph.processRecord sampleRuntime st1.1 st1.2 ['A']
            (ScaffoldGraph.dirBySemicolons (List.count [';'] ["B+,10,3,1.5".toList, [';']]))
            "C-,20,2,0.5".toList).bind
          (fun st2 => ScaffoldGraph.processFields sampleRuntime ['A'] []
            (ScaffoldGraph.dirBySemicolons (List.count [';'] ["B+,10,3,1.5".toList, [';']]))
            st2) :=
  ⟨by decide,
    (semicolon_switches_direction sampleRuntime (sampleGraph, sampleLocals)
      "A B+,10,3,1.5 ; C-,20,2,0.5".toList
      ['A'] ["B+,10,3,1.5".toList, [';']] [] "C-,20,2,0.5".toList
      (by decide) (by decide) (by decide)).1⟩

/-- A record that parses and whose ID is the root ID, or whose target already has a
distance-estimate edge from the root vertex, leaves the graph as it is and does not end the
load; the numeric locals are left with the numbers of that record. -/
theorem conflicting_record_keeps_graph {F : Type} (rt : Runtime F) (g : ScaffoldGraph F)
    (locals : Locals F) (rootID : VertexID) (currDir : EdgeDir) (record : StdString)
    (r : DERecord F) (hr : parseDERecord rt record locals = .parsed r)
    (hconf : r.id = rootID ∨ ∃ pRoot pEdge, g.getVertex rootID = some pRoot ∧
      g.findEdgeTo pRoot r.id .SET_DISTANCEEST = some (some pEdge)) :
    ScaffoldGraph.processRecord rt g locals rootID currDir record
      = some (g, ⟨r.distance, r.numPairs, r.stdDev⟩) := by
  refine processRecord_of_link rt g g locals rootID currDir record r hr ?_
  rcases hconf with hid | ⟨pRoot, pEdge, h1, hf⟩
  · exact linkRecord_self g rootID currDir r hid
  · exact linkRecord_duplicate g rootID currDir r pRoot pEdge h1 hf

/-- C7: on `sampleGraph` the record `B-,99,9,9.9` of `sampleConflictLine` is a duplicate (the
record before it linked `A` to `B`) and adds no edge, but the load of the line is not the load
of the line without it: the record `C-,,,` that follows writes none of the numeric locals, so
the edge from `A` to `C` takes the numbers 99, 9, 9.9 of the skipped record, and 10, 3, 1.5
when the skipped record is not there. -/
theorem conflicting_record_changes_following_record :
    ((sampleGraph.loadDistanceEstimateEdges sampleRuntime sampleLocals
        "A B+,10,3,1.5".toList).bind fun g => g.findEdgeTo 0 ['B'] .SET_DISTANCEEST)
      = some (some 0) ∧
    ((sampleGraph.loadDistanceEstimateEdges sampleRuntime sampleLocals sampleConflictLine).map
        fun g => g.edgeHeap.length) = some 4 ∧
    ((sampleGraph.loadDistanceEstimateEdges sampleRuntime sampleLocals
        sampleLineWithoutConflict).map fun g => g.edgeHeap.length) = some 4 ∧
    ((sampleGraph.loadDistanceEstimateEdges sampleRuntime sampleLocals sampleConflictLine).bind
        fun g => g.derefEdge 2)
      = some ⟨2, .ED_ANTISENSE, .EC_REVERSE, 99, "9.9".toList, 9, .SET_DISTANCEEST, some 3⟩ ∧
    ((sampleGraph.loadDistanceEstimateEdges sampleRuntime sampleLocals
        sampleLineWithoutConflict).bind fun g => g.derefEdge 2)
      = some ⟨2, .ED_ANTISENSE, .EC_REVERSE, 10, "1.5".toList, 3, .SET_DISTANCEEST, some 3⟩ ∧
    sampleGraph.loadDistanceEstimateEdges sampleRuntime sampleLocals sampleConflictLine
      ≠ sampleGraph.loadDistanceEstimateEdges sampleRuntime sampleLocals
          sampleLineWithoutConflict := by
  decide

/-- C9: the rule `d ↦ opposite (correctDir d c)` is its own inverse for every orientation `c`,
and for every pair of edges the loader creates (the edge `e` on the root vertex and its twin `t`
on the target vertex) the orientations are equal, each direction is obtained from the other by
the rule, and the twin leaves the opposite end for a same-orientation link and the same end for
a reverse-orientation link. -/
theorem twin_direction_rule_symmetric {F : Type} (rt : Runtime F) :
    (∀ (d : EdgeDir) (c : EdgeComp), (correctDir (correctDir d c).opposite c).opposite = d) ∧
    (∀ (g g1 : ScaffoldGraph F) (locals locals1 : Locals F) (rootID : VertexID)
      (currDir : EdgeDir) (record : StdString),
      ScaffoldGraph.processRecord rt g locals rootID currDir record = some (g1, locals1) →
      g1 ≠ g →
      ∃ r pRoot pTarget e t, parseDERecord rt record locals = .parsed r ∧
        g.getVertex rootID = some pRoot ∧ g.getVertex r.id = some pTarget ∧
        g1.edgesOf pRoot = g.edgesOf pRoot ++ [g.edgeHeap.length] ∧
        g1.edgesOf pTarget = g.edgesOf pTarget ++ [g.edgeHeap.length + 1] ∧
        g1.derefEdge g.edgeHeap.length = some e ∧
        g1.derefEdge (g.edgeHeap.length + 1) = some t ∧
        e.m_pTwin = some (g.edgeHeap.length + 1) ∧ t.m_pTwin = some g.edgeHeap.length ∧
        e.m_dir = currDir ∧ e.m_comp = r.comp ∧ t.m_comp = e.m_comp ∧
        t.m_dir = (correctDir e.m_dir e.m_comp).opposite ∧
        e.m_dir = (correctDir t.m_dir t.m_comp).opposite ∧
        (e.m_comp = .EC_SAME → t.m_dir = e.m_dir.opposite) ∧
        (e.m_comp = .EC_REVERSE → t.m_dir = e.m_dir)) := by
  have hinv : ∀ (d : EdgeDir) (c : EdgeComp),
      (correctDir (correctDir d c).opposite c).opposite = d := by
    intro d c; cases d <;> cases c <;> rfl
  refine ⟨hinv, ?_⟩
  intro g g1 locals locals1 rootID currDir record h hne
  obtain ⟨r, p1, p2, hr, hg1, hg2, hp, _, hE, hD⟩ :=
    processRecord_created rt g g1 locals locals1 rootID currDir record h hne
  refine ⟨r, p1, p2,
    (⟨p2, currDir, r.comp, r.distance, r.stdDev, r.numPairs, .SET_DISTANCEEST,
      some (g.edgeHeap.length + 1)⟩ : ScaffoldEdge F),
    (⟨p1, (correctDir currDir r.comp).opposite, r.comp, r.distance, r.stdDev, r.numPairs,
      .SET_DISTANCEEST, some g.edgeHeap.length⟩ : ScaffoldEdge F),
    hr, hg1, hg2, ?_, ?_, ?_, ?_, rfl, rfl, rfl, rfl, rfl, rfl, ?_, ?_, ?_⟩
  · rw [hE, if_neg hp, if_pos rfl]
  · rw [hE, if_pos rfl]
  · rw [hD, if_neg (by omega), if_pos rfl]
  · rw [hD, if_pos rfl]
  · exact (hinv currDir r.comp).symm
  · intro hc
    show (correctDir currDir r.comp).opposite = currDir.opposite
    have hc' : r.comp = .EC_SAME := hc
    rw [hc']; rfl
  · intro hc
    show (correctDir currDir r.comp).opposite = currDir
    have hc' : r.comp = .EC_REVERSE := hc
    rw [hc']; exact opposite_opposite currDir

theorem twin_direction_rule_symmetric_witness :
    ∃ e t : ScaffoldEdge StdString, e.m_dir = .ED_SENSE ∧ e.m_comp = .EC_REVERSE ∧
      t.m_comp = e.m_comp ∧ t.m_dir = (correctDir e.m_dir e.m_comp).opposite ∧
      e.m_dir = (correctDir t.m_dir t.m_comp).opposite ∧ t.m_dir = e.m_dir := by
  obtain ⟨_, _, _, e, t, _, _, _, _, _, h1, _, _, _, h2, _, h3, h4, h5, _, h6⟩ :=
    (twin_direction_rule_symmetric sampleRuntime).2 sampleGraph
      ⟨[some ⟨['A'], 10, .SVC_UNIQUE, [0]⟩, some ⟨['B'], 10, .SVC_REPEAT, []⟩,
          some ⟨['C'], 10, .SVC_UNIQUE, [1]⟩],
        [some ⟨2, .ED_SENSE, .EC_REVERSE, 20, "0.5".toList, 2, .SET_DISTANCEEST, some 1⟩,
          some ⟨0, .ED_SENSE, .EC_REVERSE, 20, "0.5".toList, 2, .SET_DISTANCEEST, some 0⟩],
        [(['A'], 0), (['B'], 1), (['C'], 2)]⟩
      sampleLocals ⟨20, 2, "0.5".toList⟩
      ['A'] .ED_SENSE "C-,20,2,0.5".toList (by decide) (by decide)
  have hc : e.m_comp = .EC_REVERSE := by
    have h1' : some e = some ⟨2, .ED_SENSE, .EC_REVERSE, 20, "0.5".toList, 2, .SET_DISTANCEEST,
        some 1⟩ := h1.symm.trans (by decide)
    rw [Option.some.inj h1']
  exact ⟨e, t, h2, hc, h3, h4, h5, h6 hc⟩

end Sga
